import Mathlib

/-!
# Verification of the gts-kit registry and source-position locator

Shallow embedding of the two source files of the repository:

* `packages/shared/src/registry.ts` — the `JsonRegistry` class: entity maps,
  file ingestion/invalidation, the fetch cache, and per-entity validation
  (`validateEntity`, `formatValidationErrors`).
* the VS Code validation module (`validation.ts`) — error surfacing
  (`validateOpenDocument`'s sibling-path prefixing) and the source position
  locator (`findErrorPosition` and its helpers).

JavaScript `Map`s are embedded as insertion-ordered association lists with
`set`/`delete`/`has`/`get` following `Map` semantics.  Strings are Lean
`String`s; scanning code works over `List Char` (a JS string index is the
index into that list).  VS Code `Range`s are embedded as pairs of character
offsets (`document.positionAt` is a bijection between offsets and positions,
so nothing is lost).  Promises/async are embedded by direct state passing;
the Ajv validation capability (an external library, used as a black box) is
a parameter of `validateEntity`.

The code of `entities.ts` (entity construction, `createEntity`,
`JsonFile` syntax validity) is not part of the given sources; the inputs it
produces are modelled from the spec where noted.
-/

namespace GtsKit

/-! ## Association lists with JavaScript `Map` semantics -/

/-- Insertion-ordered key/value map, as a JS `Map` backing a registry index. -/
abbrev AList (β : Type) := List (String × β)

/-- `Map.has`. -/
def mapHas {β : Type} (m : AList β) (k : String) : Bool :=
  m.any (fun p => p.1 == k)

/-- `Map.get` (`undefined` becomes `none`). -/
def mapGet {β : Type} (m : AList β) (k : String) : Option β :=
  (m.find? (fun p => p.1 == k)).map (·.2)

/-- `Map.set`: replaces in place when the key exists, else appends.
(Keys are unique in every map built by these operations, so replacing the
first occurrence is exactly the JS behaviour.) -/
def mapSet {β : Type} : AList β → String → β → AList β
  | [], k, v => [(k, v)]
  | p :: rest, k, v => if p.1 == k then (k, v) :: rest else p :: mapSet rest k v

/-- `Map.delete`. -/
def mapDelete {β : Type} (m : AList β) (k : String) : AList β :=
  m.filter (fun p => !(p.1 == k))

@[simp] theorem mapHas_nil {β : Type} (k : String) : mapHas ([] : AList β) k = false := rfl

@[simp] theorem mapHas_cons {β : Type} (p : String × β) (m : AList β) (k : String) :
    mapHas (p :: m) k = (p.1 == k || mapHas m k) := by
  simp [mapHas, List.any_cons]

@[simp] theorem mapGet_nil {β : Type} (k : String) : mapGet ([] : AList β) k = none := rfl

theorem mapGet_cons {β : Type} (p : String × β) (m : AList β) (k : String) :
    mapGet (p :: m) k = if p.1 == k then some p.2 else mapGet m k := by
  by_cases h : p.1 == k <;> simp [mapGet, List.find?_cons, h]

@[simp] theorem mapGet_isSome_iff {β : Type} (m : AList β) (k : String) :
    (mapGet m k).isSome = mapHas m k := by
  induction m with
  | nil => rfl
  | cons p m ih =>
      by_cases h : p.1 == k <;> simp [mapGet_cons, mapHas_cons, h, ih]

theorem mapHas_iff {β : Type} (m : AList β) (k : String) :
    mapHas m k = true ↔ ∃ v, mapGet m k = some v := by
  rw [← mapGet_isSome_iff]
  cases mapGet m k <;> simp

@[simp] theorem mapDelete_nil {β : Type} (k : String) : mapDelete ([] : AList β) k = [] := rfl

theorem mapDelete_cons {β : Type} (p : String × β) (m : AList β) (k : String) :
    mapDelete (p :: m) k = if p.1 == k then mapDelete m k else p :: mapDelete m k := by
  by_cases h : p.1 == k <;> simp [mapDelete, List.filter_cons, h]

@[simp] theorem mapGet_delete_self {β : Type} (m : AList β) (k : String) :
    mapGet (mapDelete m k) k = none := by
  induction m with
  | nil => rfl
  | cons p m ih =>
      rw [mapDelete_cons]
      by_cases h : p.1 == k
      · simp [h, ih]
      · simp [h, mapGet_cons, ih]

@[simp] theorem mapGet_delete_other {β : Type} (m : AList β) {k k' : String} (h : k' ≠ k) :
    mapGet (mapDelete m k) k' = mapGet m k' := by
  induction m with
  | nil => rfl
  | cons p m ih =>
      rw [mapDelete_cons]
      by_cases hp : p.1 == k
      · have hpk : p.1 = k := by simpa using hp
        have hne : (p.1 == k') = false := by
          simp [hpk]; exact fun hk => h hk.symm
        simp [hp, mapGet_cons, hne, ih]
      · simp [hp, mapGet_cons, ih]

@[simp] theorem mapGet_set_self {β : Type} (m : AList β) (k : String) (v : β) :
    mapGet (mapSet m k v) k = some v := by
  induction m with
  | nil => simp [mapSet, mapGet_cons]
  | cons p m ih =>
      rw [mapSet]
      by_cases h : p.1 == k
      · simp [h, mapGet_cons]
      · simp [h, mapGet_cons, ih]

@[simp] theorem mapGet_set_other {β : Type} (m : AList β) {k k' : String} {v : β}
    (h : k' ≠ k) : mapGet (mapSet m k v) k' = mapGet m k' := by
  induction m with
  | nil =>
      have : (k == k') = false := by simp; exact fun hk => h hk.symm
      simp [mapSet, mapGet_cons, this]
  | cons p m ih =>
      rw [mapSet]
      by_cases hp : p.1 == k
      · have hpk : p.1 = k := by simpa using hp
        have hkk : (k == k') = false := by simp; exact fun hk => h hk.symm
        have hne : (p.1 == k') = false := by simp [hpk]; exact fun hk => h hk.symm
        simp [hp, mapGet_cons, hkk, hne]
      · simp [hp, mapGet_cons, ih]

theorem mem_mapSet {β : Type} {m : AList β} {k : String} {v : β} {q : String × β}
    (h : q ∈ mapSet m k v) : q = (k, v) ∨ q ∈ m := by
  induction m with
  | nil => simpa [mapSet] using h
  | cons p m ih =>
      rw [mapSet] at h
      by_cases hp : p.1 == k
      · simp [hp] at h
        rcases h with h | h
        · left; simp [h]
        · right; simp [h]
      · simp [hp] at h
        rcases h with h | h
        · right; simp [h]
        · rcases ih h with h' | h'
          · left; exact h'
          · right; simp [h']

theorem mem_mapDelete {β : Type} {m : AList β} {k : String} {q : String × β}
    (h : q ∈ mapDelete m k) : q ∈ m ∧ q.1 ≠ k := by
  have := List.of_mem_filter h
  refine ⟨List.mem_of_mem_filter h, by simpa using this⟩

theorem mapHas_eq_false_iff {β : Type} (m : AList β) (k : String) :
    mapHas m k = false ↔ mapGet m k = none := by
  rw [← mapGet_isSome_iff]
  cases mapGet m k <;> simp

/-! ## Data model (`entities.ts` shapes, `registry.ts` maps)

`ValidationError` mirrors the TS interface; the `params` bag is embedded as a
record of the optional fields the sources ever read or write.  Non-string
JSON parameter values (numbers, arrays) are kept as their rendered text,
which is all the sources do with them (template interpolation). -/

/-- The `params` bag of a `ValidationError`. -/
structure ErrParams where
  gtsId : Option String := none
  sourcePath : Option String := none
  schemaId : Option String := none
  errorText : Option String := none
  typeParam : Option String := none
  missingProperty : Option String := none
  additionalProperty : Option String := none
  patternParam : Option String := none
  allowedValues : Option String := none
  limit : Option String := none
  comparison : Option String := none
  formatParam : Option String := none
  deriving DecidableEq, Repr

/-- `ValidationError` from `entities.ts` (shared by registry and locator). -/
structure ValidationError where
  instancePath : String
  schemaPath : String
  keyword : String
  message : String
  params : ErrParams := {}
  data : Option String := none
  deriving DecidableEq, Repr

/-- `ValidationResult`. -/
structure ValidationResult where
  valid : Bool
  errors : List ValidationError
  deriving DecidableEq, Repr

/-- A raw Ajv `ErrorObject` as consumed by `formatValidationErrors`.
Ajv error params are keyword-specific (`type`, `missingProperty`, …) and
never contain the GTS-specific `gtsId`/`sourcePath`/`schemaId` keys. -/
structure RawError where
  instancePath : String
  schemaPath : String
  keyword : String
  message : Option String := none
  typeParam : Option String := none
  missingProperty : Option String := none
  additionalProperty : Option String := none
  patternParam : Option String := none
  allowedValues : Option String := none
  limit : Option String := none
  comparison : Option String := none
  formatParam : Option String := none
  data : Option String := none
  deriving DecidableEq, Repr

/-- An outbound GTS reference `{id, sourcePath}`. -/
structure GtsRef where
  id : String
  sourcePath : String
  deriving DecidableEq, Repr

/-- Entity kind: `JsonSchema` vs `JsonObj` (`instanceof` checks in the TS). -/
inductive EntityKind where
  | obj
  | schema
  deriving DecidableEq, Repr

/-- Modelled from the spec: the attributes `createEntity` (in the absent
`entities.ts`) extracts from one content element under the configuration —
its kind, identifier, declared schema identifier and outbound references. -/
structure EntityData where
  kind : EntityKind
  id : String
  schemaId : Option String := none
  gtsRefs : List GtsRef := []
  deriving DecidableEq, Repr

/-- A registered entity: extraction result plus the position attributes the
registry itself assigns (owning file path, array index). -/
structure Entity extends EntityData where
  filePath : String
  listSequence : Option Nat := none
  deriving DecidableEq, Repr

/-- The `JsonFile` record as stored in `jsonFiles`/`invalidFiles` (the raw
content plays no further role for the registry maps). -/
structure JsonFileRec where
  path : String
  name : String
  deriving DecidableEq, Repr

/-- Modelled from the spec: what a file's pre-parsed content amounts to for
`processFileContent` — syntactically invalid, a bare object, or an array;
each element is `some` extraction result when the element qualifies as a GTS
entity under the configuration and `none` otherwise. -/
inductive FileContent where
  | invalid
  | single (e : Option EntityData)
  | array (es : List (Option EntityData))
  deriving DecidableEq, Repr

/-- One `{path, name, content}` ingestion input. -/
structure FileInput where
  path : String
  name : String
  content : FileContent
  deriving DecidableEq, Repr

/-! ## Registry core (`JsonRegistry`) -/

/-- The mutable maps of `JsonRegistry`.  (`fetchCache` and `defaultFilePath`
are independent of the entity maps and are embedded separately.) -/
structure Registry where
  jsonObjs : AList Entity
  jsonSchemas : AList Entity
  jsonFiles : AList JsonFileRec
  invalidFiles : AList JsonFileRec
  jsonFileObjs : AList (List Entity)
  jsonFileSchemas : AList (List Entity)
  deriving DecidableEq, Repr

/-- The freshly constructed registry. -/
def emptyRegistry : Registry :=
  { jsonObjs := [], jsonSchemas := [], jsonFiles := [], invalidFiles := []
    jsonFileObjs := [], jsonFileSchemas := [] }

/-- The `for (const obj of ...) this.jsonObjs.delete(obj.id)` loops of
`invalidateFile`. -/
def deleteEntityIds (m : AList Entity) (es : List Entity) : AList Entity :=
  es.foldl (fun acc e => mapDelete acc e.id) m

/-- `JsonRegistry.invalidateFile` (registry.ts:71-92).  `if has then delete`
is plain `delete`; the `delete` + `set(path, [])` pair leaves an empty-list
marker, but only when the per-file index had the path. -/
def invalidateFile (r : Registry) (path : String) : Registry :=
  let r1 := { r with jsonFiles := mapDelete r.jsonFiles path }
  let r2 := { r1 with invalidFiles := mapDelete r1.invalidFiles path }
  let r3 :=
    match mapGet r2.jsonFileObjs path with
    | some objs =>
        { r2 with jsonObjs := deleteEntityIds r2.jsonObjs objs
                  jsonFileObjs := mapSet (mapDelete r2.jsonFileObjs path) path [] }
    | none => r2
  match mapGet r3.jsonFileSchemas path with
  | some schs =>
      { r3 with jsonSchemas := deleteEntityIds r3.jsonSchemas schs
                jsonFileSchemas := mapSet (mapDelete r3.jsonFileSchemas path) path [] }
  | none => r3

/-- Index an entity by kind into the global and per-file maps
(the `entity instanceof JsonSchema` branch of `processFileContent`). -/
def addEntity (r : Registry) (path : String) (ent : Entity) : Registry :=
  match ent.kind with
  | .schema =>
      { r with jsonSchemas := mapSet r.jsonSchemas ent.id ent
               jsonFileSchemas :=
                 mapSet r.jsonFileSchemas path ((mapGet r.jsonFileSchemas path).getD [] ++ [ent]) }
  | .obj =>
      { r with jsonObjs := mapSet r.jsonObjs ent.id ent
               jsonFileObjs :=
                 mapSet r.jsonFileObjs path ((mapGet r.jsonFileObjs path).getD [] ++ [ent]) }

/-- The `entities.forEach((entityContent, idx) => ...)` loop: the second
component accumulates `hasGtsEntities`. -/
def processElems (path : String) (isArr : Bool) :
    List (Option EntityData) → Nat → Registry → Bool → Registry × Bool
  | [], _, r, has => (r, has)
  | none :: rest, idx, r, has => processElems path isArr rest (idx + 1) r has
  | some d :: rest, idx, r, has =>
      let ent : Entity :=
        { toEntityData := d, filePath := path
          listSequence := if isArr then some idx else none }
      processElems path isArr rest (idx + 1) (addEntity r path ent) true

/-- `normalizeToArray` composed with the per-element extraction. -/
def contentElems : FileContent → List (Option EntityData)
  | .invalid => []
  | .single e => [e]
  | .array es => es

/-- `Array.isArray(content)`. -/
def contentIsArray : FileContent → Bool
  | .array _ => true
  | _ => false

/-- `JsonRegistry.processFileContent` (registry.ts:98-141). -/
def processFileContent (r : Registry) (path name : String) (content : FileContent) : Registry :=
  let r := invalidateFile r path
  match content with
  | .invalid => { r with invalidFiles := mapSet r.invalidFiles path ⟨path, name⟩ }
  | _ =>
      let (r', has) := processElems path (contentIsArray content) (contentElems content) 0 r false
      if has && !(mapHas r'.jsonFiles path) then
        { r' with jsonFiles := mapSet r'.jsonFiles path ⟨path, name⟩ }
      else r'

/-- `/(^|[\\\/])\.gts-viewer[\\\/]/`: the literal `.gts-viewer` between
separators, at the head of the match or after one. -/
def isSep (c : Char) : Bool := c = '/' || c = '\\'

/-- `.gts-viewer` followed by a separator at the head of the list. -/
def viewerHere (l : List Char) : Bool :=
  decide (l.take 11 = ".gts-viewer".toList) &&
    (match l.drop 11 with
     | c :: _ => isSep c
     | [] => false)

/-- A separator followed by `.gts-viewer` and a separator, anywhere. -/
def viewerAfterSep : List Char → Bool
  | [] => false
  | c :: rest => (isSep c && viewerHere rest) || viewerAfterSep rest

/-- The `.gts-viewer`-directory skip test of `ingestFiles`. -/
def isGtsViewerPath (s : String) : Bool :=
  viewerHere s.toList || viewerAfterSep s.toList

/-- `JsonRegistry.ingestFiles` (registry.ts:404-418) restricted to its map
effects: skipped paths, per-file processing.  `validateEntities` only writes
per-entity validation results (embedded separately as `validateEntity`) and
never touches the maps; per-file failures are caught and logged, which for
the total embedding is the identity. -/
def ingestFiles (r : Registry) (files : List FileInput) : Registry :=
  files.foldl
    (fun acc f =>
      if isGtsViewerPath f.path then acc
      else processFileContent acc f.path f.name f.content)
    r

/-- One public mutating registry operation. -/
inductive Op where
  | ingest (files : List FileInput)
  | invalidate (path : String)
  deriving DecidableEq, Repr

/-- Apply one operation. -/
def applyOp (r : Registry) : Op → Registry
  | .ingest fs => ingestFiles r fs
  | .invalidate p => invalidateFile r p

/-- Run a sequence of operations from a fresh registry. -/
def runOps (ops : List Op) : Registry :=
  ops.foldl applyOp emptyRegistry

/-! ## Registry invariants -/

theorem mapGet_eq_some_mem {β : Type} {m : AList β} {k : String} {v : β}
    (h : mapGet m k = some v) : (k, v) ∈ m := by
  unfold mapGet at h
  cases hf : m.find? (fun p => p.1 == k) with
  | none => simp [hf] at h
  | some q =>
      simp [hf] at h
      have hq := List.find?_some hf
      have hqm := List.mem_of_find?_eq_some hf
      have : q.1 = k := by simpa using hq
      have : q = (k, v) := by
        cases q; simp_all
      simpa [this] using hqm

theorem mapGet_eq_none_not_mem {β : Type} {m : AList β} {k : String}
    (h : mapGet m k = none) : ∀ v, (k, v) ∉ m := by
  intro v hv
  unfold mapGet at h
  cases hf : m.find? (fun p => p.1 == k) with
  | none =>
      have := List.find?_eq_none.mp hf (k, v) hv
      simp at this
  | some q => simp [hf] at h

theorem mem_deleteEntityIds {m : AList Entity} {es : List Entity} {q : String × Entity}
    (h : q ∈ deleteEntityIds m es) : q ∈ m ∧ ∀ e ∈ es, q.1 ≠ e.id := by
  induction es generalizing m with
  | nil => exact ⟨h, by simp⟩
  | cons e es ih =>
      have h' := ih (m := mapDelete m e.id) h
      have h2 := mem_mapDelete h'.1
      refine ⟨h2.1, ?_⟩
      intro e' he'
      rcases List.mem_cons.mp he' with rfl | he'
      · exact h2.2
      · exact h'.2 e' he'

theorem mapGet_deleteEntityIds (m : AList Entity) (es : List Entity) (k : String) :
    mapGet (deleteEntityIds m es) k =
      if es.any (fun e => e.id == k) then none else mapGet m k := by
  induction es generalizing m with
  | nil => simp [deleteEntityIds]
  | cons e es ih =>
      show mapGet (deleteEntityIds (mapDelete m e.id) es) k = _
      rw [ih, List.any_cons]
      by_cases hk : k = e.id
      · have hself : mapGet (mapDelete m e.id) k = none := by
          rw [hk]; exact mapGet_delete_self m e.id
        have hbeq : (e.id == k) = true := by simp [hk]
        by_cases ha : es.any (fun e' => e'.id == k) <;> simp [ha, hbeq, hself]
      · have hdel : mapGet (mapDelete m e.id) k = mapGet m k := mapGet_delete_other _ hk
        have hbeq : (e.id == k) = false := by
          simp only [beq_eq_false_iff_ne, ne_eq]
          exact fun h => hk h.symm
        by_cases ha : es.any (fun e' => e'.id == k) <;> simp [ha, hbeq, hdel]

/-- Consistency of one global index entry with the per-file index. -/
def entOk (kind : EntityKind) (fileIdx : AList (List Entity)) (k : String) (e : Entity) : Prop :=
  k = e.id ∧ e.kind = kind ∧ e ∈ (mapGet fileIdx e.filePath).getD []

/-- The registry invariant maintained by all reachable states. -/
structure Inv (r : Registry) : Prop where
  objs : ∀ q ∈ r.jsonObjs, entOk .obj r.jsonFileObjs q.1 q.2
  schemas : ∀ q ∈ r.jsonSchemas, entOk .schema r.jsonFileSchemas q.1 q.2
  fileObjs : ∀ pl ∈ r.jsonFileObjs, ∀ e ∈ pl.2, e.filePath = pl.1 ∧ e.kind = .obj
  fileSchemas : ∀ pl ∈ r.jsonFileSchemas, ∀ e ∈ pl.2, e.filePath = pl.1 ∧ e.kind = .schema
  disj : ∀ p, ¬(mapHas r.jsonFiles p = true ∧ mapHas r.invalidFiles p = true)

theorem inv_empty : Inv emptyRegistry := by
  constructor <;> simp [emptyRegistry]

/-! Field descriptions of `invalidateFile`. -/

theorem invalidateFile_jsonFiles (r : Registry) (p : String) :
    (invalidateFile r p).jsonFiles = mapDelete r.jsonFiles p := by
  unfold invalidateFile
  cases h1 : mapGet r.jsonFileObjs p <;>
    simp only [h1] <;>
    (first
      | (cases h2 : mapGet r.jsonFileSchemas p <;> simp [h2]))

theorem invalidateFile_invalidFiles (r : Registry) (p : String) :
    (invalidateFile r p).invalidFiles = mapDelete r.invalidFiles p := by
  unfold invalidateFile
  cases h1 : mapGet r.jsonFileObjs p <;>
    simp only [h1] <;>
    (first
      | (cases h2 : mapGet r.jsonFileSchemas p <;> simp [h2]))

theorem invalidateFile_jsonObjs (r : Registry) (p : String) :
    (invalidateFile r p).jsonObjs =
      match mapGet r.jsonFileObjs p with
      | some objs => deleteEntityIds r.jsonObjs objs
      | none => r.jsonObjs := by
  unfold invalidateFile
  cases h1 : mapGet r.jsonFileObjs p <;>
    simp only [h1] <;>
    (first
      | (cases h2 : mapGet r.jsonFileSchemas p <;> simp [h2]))

theorem invalidateFile_jsonFileObjs (r : Registry) (p : String) :
    (invalidateFile r p).jsonFileObjs =
      match mapGet r.jsonFileObjs p with
      | some _ => mapSet (mapDelete r.jsonFileObjs p) p []
      | none => r.jsonFileObjs := by
  unfold invalidateFile
  cases h1 : mapGet r.jsonFileObjs p <;>
    simp only [h1] <;>
    (first
      | (cases h2 : mapGet r.jsonFileSchemas p <;> simp [h2]))

theorem invalidateFile_jsonSchemas (r : Registry) (p : String) :
    (invalidateFile r p).jsonSchemas =
      match mapGet r.jsonFileSchemas p with
      | some schs => deleteEntityIds r.jsonSchemas schs
      | none => r.jsonSchemas := by
  unfold invalidateFile
  cases h1 : mapGet r.jsonFileObjs p <;>
    simp only [h1] <;>
    (first
      | (cases h2 : mapGet r.jsonFileSchemas p <;> simp [h2]))

theorem invalidateFile_jsonFileSchemas (r : Registry) (p : String) :
    (invalidateFile r p).jsonFileSchemas =
      match mapGet r.jsonFileSchemas p with
      | some _ => mapSet (mapDelete r.jsonFileSchemas p) p []
      | none => r.jsonFileSchemas := by
  unfold invalidateFile
  cases h1 : mapGet r.jsonFileObjs p <;>
    simp only [h1] <;>
    (first
      | (cases h2 : mapGet r.jsonFileSchemas p <;> simp [h2]))

@[simp] theorem mapHas_delete_self {β : Type} (m : AList β) (k : String) :
    mapHas (mapDelete m k) k = false := by
  rw [← mapGet_isSome_iff, mapGet_delete_self]; rfl

theorem mapHas_delete_other {β : Type} (m : AList β) {k k' : String} (h : k' ≠ k) :
    mapHas (mapDelete m k) k' = mapHas m k' := by
  rw [← mapGet_isSome_iff, ← mapGet_isSome_iff, mapGet_delete_other _ h]

@[simp] theorem mapHas_set_self {β : Type} (m : AList β) (k : String) (v : β) :
    mapHas (mapSet m k v) k = true := by
  rw [← mapGet_isSome_iff, mapGet_set_self]; rfl

theorem mapHas_set_other {β : Type} (m : AList β) {k k' : String} {v : β} (h : k' ≠ k) :
    mapHas (mapSet m k v) k' = mapHas m k' := by
  rw [← mapGet_isSome_iff, ← mapGet_isSome_iff, mapGet_set_other _ h]

/-- `invalidateFile` preserves the registry invariant. -/
theorem inv_invalidateFile {r : Registry} (h : Inv r) (p : String) :
    Inv (invalidateFile r p) := by
  refine ⟨?_, ?_, ?_, ?_, ?_⟩
  · intro q hq
    rw [invalidateFile_jsonObjs] at hq
    cases hobj : mapGet r.jsonFileObjs p with
    | none =>
        rw [hobj] at hq
        obtain ⟨hid, hkind, hfile⟩ := h.objs q hq
        refine ⟨hid, hkind, ?_⟩
        rw [invalidateFile_jsonFileObjs, hobj]
        exact hfile
    | some objs =>
        rw [hobj] at hq
        have hmem := mem_deleteEntityIds hq
        obtain ⟨hid, hkind, hfile⟩ := h.objs q hmem.1
        refine ⟨hid, hkind, ?_⟩
        rw [invalidateFile_jsonFileObjs, hobj]
        dsimp only
        by_cases hfp : q.2.filePath = p
        · rw [hfp, hobj] at hfile
          simp only [Option.getD_some] at hfile
          exact absurd hid (hmem.2 q.2 hfile)
        · rw [mapGet_set_other _ hfp, mapGet_delete_other _ hfp]
          exact hfile
  · intro q hq
    rw [invalidateFile_jsonSchemas] at hq
    cases hsch : mapGet r.jsonFileSchemas p with
    | none =>
        rw [hsch] at hq
        obtain ⟨hid, hkind, hfile⟩ := h.schemas q hq
        refine ⟨hid, hkind, ?_⟩
        rw [invalidateFile_jsonFileSchemas, hsch]
        exact hfile
    | some schs =>
        rw [hsch] at hq
        have hmem := mem_deleteEntityIds hq
        obtain ⟨hid, hkind, hfile⟩ := h.schemas q hmem.1
        refine ⟨hid, hkind, ?_⟩
        rw [invalidateFile_jsonFileSchemas, hsch]
        dsimp only
        by_cases hfp : q.2.filePath = p
        · rw [hfp, hsch] at hfile
          simp only [Option.getD_some] at hfile
          exact absurd hid (hmem.2 q.2 hfile)
        · rw [mapGet_set_other _ hfp, mapGet_delete_other _ hfp]
          exact hfile
  · intro pl hpl e he
    rw [invalidateFile_jsonFileObjs] at hpl
    cases hobj : mapGet r.jsonFileObjs p with
    | none =>
        rw [hobj] at hpl
        exact h.fileObjs pl hpl e he
    | some objs =>
        rw [hobj] at hpl
        rcases mem_mapSet hpl with rfl | hpl'
        · simp at he
        · exact h.fileObjs pl (mem_mapDelete hpl').1 e he
  · intro pl hpl e he
    rw [invalidateFile_jsonFileSchemas] at hpl
    cases hsch : mapGet r.jsonFileSchemas p with
    | none =>
        rw [hsch] at hpl
        exact h.fileSchemas pl hpl e he
    | some schs =>
        rw [hsch] at hpl
        rcases mem_mapSet hpl with rfl | hpl'
        · simp at he
        · exact h.fileSchemas pl (mem_mapDelete hpl').1 e he
  · intro q hq
    rw [invalidateFile_jsonFiles] at hq
    rw [invalidateFile_invalidFiles] at hq
    by_cases hqp : q = p
    · rw [hqp, mapHas_delete_self] at hq
      exact absurd hq.1 (by simp)
    · rw [mapHas_delete_other _ hqp, mapHas_delete_other _ hqp] at hq
      exact h.disj q hq

theorem addEntity_jsonFiles (r : Registry) (p : String) (ent : Entity) :
    (addEntity r p ent).jsonFiles = r.jsonFiles := by
  cases hk : ent.kind <;> simp [addEntity, hk]

theorem addEntity_invalidFiles (r : Registry) (p : String) (ent : Entity) :
    (addEntity r p ent).invalidFiles = r.invalidFiles := by
  cases hk : ent.kind <;> simp [addEntity, hk]

/-- Indexing one entity of file `p` preserves the invariant. -/
theorem inv_addEntity {r : Registry} (h : Inv r) (p : String) (ent : Entity)
    (hfp : ent.filePath = p) : Inv (addEntity r p ent) := by
  cases hk : ent.kind with
  | obj =>
      refine ⟨?_, ?_, ?_, ?_, ?_⟩
      · intro q hq
        simp only [addEntity, hk] at hq ⊢
        rcases mem_mapSet hq with rfl | hq'
        · refine ⟨rfl, hk, ?_⟩
          rw [hfp, mapGet_set_self]
          simp
        · obtain ⟨hid, hkind, hfile⟩ := h.objs q hq'
          refine ⟨hid, hkind, ?_⟩
          by_cases hq2 : q.2.filePath = p
          · rw [hq2, mapGet_set_self]
            simp only [Option.getD_some]
            apply List.mem_append_left
            rw [hq2] at hfile
            exact hfile
          · rw [mapGet_set_other _ hq2]
            exact hfile
      · intro q hq
        simp only [addEntity, hk] at hq ⊢
        exact h.schemas q hq
      · intro pl hpl e he
        simp only [addEntity, hk] at hpl
        rcases mem_mapSet hpl with rfl | hpl'
        · rcases List.mem_append.mp he with he' | he'
          · cases hold : mapGet r.jsonFileObjs p with
            | none => rw [hold] at he'; simp at he'
            | some l =>
                rw [hold] at he'
                simp only [Option.getD_some] at he'
                exact h.fileObjs (p, l) (mapGet_eq_some_mem hold) e he'
          · simp only [List.mem_singleton] at he'
            subst he'
            exact ⟨hfp, hk⟩
        · exact h.fileObjs pl hpl' e he
      · intro pl hpl e he
        simp only [addEntity, hk] at hpl
        exact h.fileSchemas pl hpl e he
      · intro q hq
        simp only [addEntity, hk] at hq
        exact h.disj q hq
  | schema =>
      refine ⟨?_, ?_, ?_, ?_, ?_⟩
      · intro q hq
        simp only [addEntity, hk] at hq ⊢
        exact h.objs q hq
      · intro q hq
        simp only [addEntity, hk] at hq ⊢
        rcases mem_mapSet hq with rfl | hq'
        · refine ⟨rfl, hk, ?_⟩
          rw [hfp, mapGet_set_self]
          simp
        · obtain ⟨hid, hkind, hfile⟩ := h.schemas q hq'
          refine ⟨hid, hkind, ?_⟩
          by_cases hq2 : q.2.filePath = p
          · rw [hq2, mapGet_set_self]
            simp only [Option.getD_some]
            apply List.mem_append_left
            rw [hq2] at hfile
            exact hfile
          · rw [mapGet_set_other _ hq2]
            exact hfile
      · intro pl hpl e he
        simp only [addEntity, hk] at hpl
        exact h.fileObjs pl hpl e he
      · intro pl hpl e he
        simp only [addEntity, hk] at hpl
        rcases mem_mapSet hpl with rfl | hpl'
        · rcases List.mem_append.mp he with he' | he'
          · cases hold : mapGet r.jsonFileSchemas p with
            | none => rw [hold] at he'; simp at he'
            | some l =>
                rw [hold] at he'
                simp only [Option.getD_some] at he'
                exact h.fileSchemas (p, l) (mapGet_eq_some_mem hold) e he'
          · simp only [List.mem_singleton] at he'
            subst he'
            exact ⟨hfp, hk⟩
        · exact h.fileSchemas pl hpl' e he
      · intro q hq
        simp only [addEntity, hk] at hq
        exact h.disj q hq

theorem processElems_jsonFiles (p : String) (a : Bool) (elems : List (Option EntityData))
    (idx : Nat) (r : Registry) (has : Bool) :
    (processElems p a elems idx r has).1.jsonFiles = r.jsonFiles ∧
      (processElems p a elems idx r has).1.invalidFiles = r.invalidFiles := by
  induction elems generalizing idx r has with
  | nil => exact ⟨rfl, rfl⟩
  | cons oe rest ih =>
      cases oe with
      | none => exact ih (idx + 1) r has
      | some d =>
          have := ih (idx + 1)
            (addEntity r p { toEntityData := d, filePath := p
                             listSequence := if a then some idx else none }) true
          rw [processElems]
          rw [this.1, this.2, addEntity_jsonFiles, addEntity_invalidFiles]
          exact ⟨rfl, rfl⟩

theorem inv_processElems (p : String) (a : Bool) (elems : List (Option EntityData))
    (idx : Nat) {r : Registry} (h : Inv r) (has : Bool) :
    Inv (processElems p a elems idx r has).1 := by
  induction elems generalizing idx r has with
  | nil => exact h
  | cons oe rest ih =>
      cases oe with
      | none => exact ih (idx + 1) h has
      | some d =>
          exact ih (idx + 1) (inv_addEntity h p _ rfl) true

/-- Registering the `JsonFile` in `jsonFiles` preserves the invariant when
the path is absent from `invalidFiles`. -/
theorem inv_setJsonFiles {r : Registry} (h : Inv r) {path : String} (v : JsonFileRec)
    (hif : mapHas r.invalidFiles path = false) :
    Inv { r with jsonFiles := mapSet r.jsonFiles path v } := by
  refine ⟨h.objs, h.schemas, h.fileObjs, h.fileSchemas, ?_⟩
  intro q hq
  have hq1 : mapHas (mapSet r.jsonFiles path v) q = true := hq.1
  have hq2 : mapHas r.invalidFiles q = true := hq.2
  by_cases hqp : q = path
  · rw [hqp] at hq2
    rw [hq2] at hif
    exact absurd hif (by simp)
  · rw [mapHas_set_other _ hqp] at hq1
    exact h.disj q ⟨hq1, hq2⟩

/-- Recording an invalid file preserves the invariant when the path is absent
from `jsonFiles`. -/
theorem inv_setInvalidFiles {r : Registry} (h : Inv r) {path : String} (v : JsonFileRec)
    (hjf : mapHas r.jsonFiles path = false) :
    Inv { r with invalidFiles := mapSet r.invalidFiles path v } := by
  refine ⟨h.objs, h.schemas, h.fileObjs, h.fileSchemas, ?_⟩
  intro q hq
  have hq1 : mapHas r.jsonFiles q = true := hq.1
  have hq2 : mapHas (mapSet r.invalidFiles path v) q = true := hq.2
  by_cases hqp : q = path
  · rw [hqp] at hq1
    rw [hq1] at hjf
    exact absurd hjf (by simp)
  · rw [mapHas_set_other _ hqp] at hq2
    exact h.disj q ⟨hq1, hq2⟩

/-- `processFileContent` preserves the registry invariant. -/
theorem inv_processFileContent {r : Registry} (h : Inv r) (path name : String)
    (content : FileContent) : Inv (processFileContent r path name content) := by
  have h0 : Inv (invalidateFile r path) := inv_invalidateFile h path
  have hjf : mapHas (invalidateFile r path).jsonFiles path = false := by
    rw [invalidateFile_jsonFiles, mapHas_delete_self]
  have hif : mapHas (invalidateFile r path).invalidFiles path = false := by
    rw [invalidateFile_invalidFiles, mapHas_delete_self]
  cases content with
  | invalid => exact inv_setInvalidFiles h0 ⟨path, name⟩ hjf
  | single e =>
      have h1 := inv_processElems path (contentIsArray (.single e))
        (contentElems (.single e)) 0 h0 false
      have h2 := processElems_jsonFiles path (contentIsArray (.single e))
        (contentElems (.single e)) 0 (invalidateFile r path) false
      simp only [processFileContent]
      split
      · exact inv_setJsonFiles h1 ⟨path, name⟩ (by rw [h2.2]; exact hif)
      · exact h1
  | array es =>
      have h1 := inv_processElems path (contentIsArray (.array es))
        (contentElems (.array es)) 0 h0 false
      have h2 := processElems_jsonFiles path (contentIsArray (.array es))
        (contentElems (.array es)) 0 (invalidateFile r path) false
      simp only [processFileContent]
      split
      · exact inv_setJsonFiles h1 ⟨path, name⟩ (by rw [h2.2]; exact hif)
      · exact h1

/-- `ingestFiles` preserves the registry invariant. -/
theorem inv_ingestFiles {r : Registry} (h : Inv r) (files : List FileInput) :
    Inv (ingestFiles r files) := by
  induction files generalizing r with
  | nil => exact h
  | cons f fs ih =>
      show Inv (List.foldl _ _ (f :: fs))
      rw [List.foldl_cons]
      by_cases hskip : isGtsViewerPath f.path
      · simpa [hskip] using ih h
      · simpa [hskip] using ih (inv_processFileContent h f.path f.name f.content)

/-- Every reachable registry state satisfies the invariant. -/
theorem inv_runOps (ops : List Op) : Inv (runOps ops) := by
  suffices hgen : ∀ (r : Registry), Inv r → Inv (ops.foldl applyOp r) from
    hgen emptyRegistry inv_empty
  induction ops with
  | nil => exact fun r h => h
  | cons op ops ih =>
      intro r h
      rw [List.foldl_cons]
      cases op with
      | ingest fs => exact ih _ (inv_ingestFiles h fs)
      | invalidate p => exact ih _ (inv_invalidateFile h p)

/-- Completeness of invalidation on any state satisfying the invariant. -/
theorem invalidate_complete {r : Registry} (h : Inv r) (p : String) :
    (∀ q ∈ (invalidateFile r p).jsonObjs, q.2.filePath ≠ p) ∧
    (∀ q ∈ (invalidateFile r p).jsonSchemas, q.2.filePath ≠ p) ∧
    (∀ pl ∈ (invalidateFile r p).jsonFileObjs, ∀ e ∈ pl.2, e.filePath ≠ p) ∧
    (∀ pl ∈ (invalidateFile r p).jsonFileSchemas, ∀ e ∈ pl.2, e.filePath ≠ p) ∧
    mapHas (invalidateFile r p).jsonFiles p = false ∧
    mapHas (invalidateFile r p).invalidFiles p = false ∧
    (mapGet (invalidateFile r p).jsonFileObjs p =
      if mapHas r.jsonFileObjs p then some [] else none) ∧
    (mapGet (invalidateFile r p).jsonFileSchemas p =
      if mapHas r.jsonFileSchemas p then some [] else none) := by
  refine ⟨?_, ?_, ?_, ?_, ?_, ?_, ?_, ?_⟩
  · intro q hq hfp
    rw [invalidateFile_jsonObjs] at hq
    cases hobj : mapGet r.jsonFileObjs p with
    | none =>
        rw [hobj] at hq
        obtain ⟨_, _, hfile⟩ := h.objs q hq
        rw [hfp, hobj] at hfile
        simp at hfile
    | some objs =>
        rw [hobj] at hq
        have hmem := mem_deleteEntityIds hq
        obtain ⟨hid, _, hfile⟩ := h.objs q hmem.1
        rw [hfp, hobj] at hfile
        simp only [Option.getD_some] at hfile
        exact hmem.2 q.2 hfile hid
  · intro q hq hfp
    rw [invalidateFile_jsonSchemas] at hq
    cases hsch : mapGet r.jsonFileSchemas p with
    | none =>
        rw [hsch] at hq
        obtain ⟨_, _, hfile⟩ := h.schemas q hq
        rw [hfp, hsch] at hfile
        simp at hfile
    | some schs =>
        rw [hsch] at hq
        have hmem := mem_deleteEntityIds hq
        obtain ⟨hid, _, hfile⟩ := h.schemas q hmem.1
        rw [hfp, hsch] at hfile
        simp only [Option.getD_some] at hfile
        exact hmem.2 q.2 hfile hid
  · intro pl hpl e he hfp
    rw [invalidateFile_jsonFileObjs] at hpl
    cases hobj : mapGet r.jsonFileObjs p with
    | none =>
        rw [hobj] at hpl
        have h1 := (h.fileObjs pl hpl e he).1
        have hp1 : pl.1 = p := by rw [← h1, hfp]
        obtain ⟨a, l⟩ := pl
        simp only at hp1
        rw [hp1] at hpl
        exact mapGet_eq_none_not_mem hobj l hpl
    | some objs =>
        rw [hobj] at hpl
        rcases mem_mapSet hpl with rfl | hpl'
        · simp at he
        · have hmd := mem_mapDelete hpl'
          have h1 := (h.fileObjs pl hmd.1 e he).1
          exact hmd.2 (by rw [← h1, hfp])
  · intro pl hpl e he hfp
    rw [invalidateFile_jsonFileSchemas] at hpl
    cases hsch : mapGet r.jsonFileSchemas p with
    | none =>
        rw [hsch] at hpl
        have h1 := (h.fileSchemas pl hpl e he).1
        have hp1 : pl.1 = p := by rw [← h1, hfp]
        obtain ⟨a, l⟩ := pl
        simp only at hp1
        rw [hp1] at hpl
        exact mapGet_eq_none_not_mem hsch l hpl
    | some schs =>
        rw [hsch] at hpl
        rcases mem_mapSet hpl with rfl | hpl'
        · simp at he
        · have hmd := mem_mapDelete hpl'
          have h1 := (h.fileSchemas pl hmd.1 e he).1
          exact hmd.2 (by rw [← h1, hfp])
  · rw [invalidateFile_jsonFiles, mapHas_delete_self]
  · rw [invalidateFile_invalidFiles, mapHas_delete_self]
  · rw [invalidateFile_jsonFileObjs]
    cases hobj : mapGet r.jsonFileObjs p with
    | none =>
        have : mapHas r.jsonFileObjs p = false := by
          rw [← mapGet_isSome_iff, hobj]; rfl
        rw [this]
        simp [hobj]
    | some objs =>
        have : mapHas r.jsonFileObjs p = true := by
          rw [← mapGet_isSome_iff, hobj]; rfl
        rw [this]
        simp
  · rw [invalidateFile_jsonFileSchemas]
    cases hsch : mapGet r.jsonFileSchemas p with
    | none =>
        have : mapHas r.jsonFileSchemas p = false := by
          rw [← mapGet_isSome_iff, hsch]; rfl
        rw [this]
        simp [hsch]
    | some schs =>
        have : mapHas r.jsonFileSchemas p = true := by
          rw [← mapGet_isSome_iff, hsch]; rfl
        rw [this]
        simp

/-! ## Claims C3, C8, C9 -/

/-- C3 (counterexample): the claim asserts that after `invalidateFile(P)` the
per-file indices map P to an empty list for *every* path and registry state;
on a fresh registry and a never-seen path the indices do not contain the path
at all (the `if (this.jsonFileObjs.has(path))` guard skips the marker). -/
theorem claim_C3_counterexample :
    mapGet (invalidateFile emptyRegistry "a").jsonFileObjs "a" = none ∧
    mapGet (invalidateFile emptyRegistry "a").jsonFileSchemas "a" = none ∧
    (none : Option (List Entity)) ≠ some [] := by
  refine ⟨?_, ?_, by simp⟩ <;> rfl

/-- C3 (amended): for every reachable registry state and path P, after
`invalidateFile(P)` no entity owned by P remains in the global object index,
the global schema index, or the per-file indices; P is a key of neither
`jsonFiles` nor `invalidFiles`; and the per-file indices map P to an empty
list when they previously had key P, and lack key P otherwise. -/
theorem claim_C3_invalidation_amended (ops : List Op) (p : String) :
    (∀ q ∈ (invalidateFile (runOps ops) p).jsonObjs, q.2.filePath ≠ p) ∧
    (∀ q ∈ (invalidateFile (runOps ops) p).jsonSchemas, q.2.filePath ≠ p) ∧
    (∀ pl ∈ (invalidateFile (runOps ops) p).jsonFileObjs, ∀ e ∈ pl.2, e.filePath ≠ p) ∧
    (∀ pl ∈ (invalidateFile (runOps ops) p).jsonFileSchemas, ∀ e ∈ pl.2, e.filePath ≠ p) ∧
    mapHas (invalidateFile (runOps ops) p).jsonFiles p = false ∧
    mapHas (invalidateFile (runOps ops) p).invalidFiles p = false ∧
    (mapGet (invalidateFile (runOps ops) p).jsonFileObjs p =
      if mapHas (runOps ops).jsonFileObjs p then some [] else none) ∧
    (mapGet (invalidateFile (runOps ops) p).jsonFileSchemas p =
      if mapHas (runOps ops).jsonFileSchemas p then some [] else none) :=
  invalidate_complete (inv_runOps ops) p

/-- C8: after any sequence of `ingestFiles`/`invalidateFile` operations from
a fresh registry, no path is a key of both `jsonFiles` and `invalidFiles`. -/
theorem claim_C8_files_disjoint (ops : List Op) (p : String) :
    ¬(mapHas (runOps ops).jsonFiles p = true ∧
      mapHas (runOps ops).invalidFiles p = true) :=
  (inv_runOps ops).disj p

/-- Ingest file `"p"` then file `"q"`, each holding one object entity with
the same identifier `"x"`. -/
def opsC9 : List Op :=
  [.ingest [⟨"p", "p", .single (some ⟨.obj, "x", none, []⟩)⟩],
   .ingest [⟨"q", "q", .single (some ⟨.obj, "x", none, []⟩)⟩]]

/-- The entity owned by file `"q"` in the `opsC9` scenario. -/
def entQ : Entity :=
  { kind := .obj, id := "x", schemaId := none, gtsRefs := [],
    filePath := "q", listSequence := none }

/-- C9: after ingesting `"p"` and then `"q"` (whose entity re-uses
identifier `"x"`), the global object index holds `"q"`'s entity; yet
`invalidateFile("p")` deletes it, because deletion goes by identifier through
the stale per-file list of `"p"` — the entity owned by the untouched file
`"q"` does not survive. -/
theorem claim_C9_cross_file_deletion :
    mapGet (runOps opsC9).jsonObjs "x" = some entQ ∧
    entQ.filePath = "q" ∧
    mapGet (invalidateFile (runOps opsC9) "p").jsonObjs "x" = none := by
  refine ⟨?_, rfl, ?_⟩ <;> rfl

/-! ## Entity validation (`validateEntity`, registry.ts:146-238) -/

/-- `sourcePath.replace(/\./g, '/')`. -/
def dotsToSlashes (s : String) : String :=
  String.mk (s.toList.map (fun c => if c = '.' then '/' else c))

/-- `.replace(/\[(\d+)\]/g, '/$1')`: each bracketed digit run becomes a
slash-prefixed digit run; the global regex scans left to right without
overlap. -/
def replaceBrackets : List Char → List Char
  | [] => []
  | c :: rest =>
      if c = '[' then
        let ds := rest.takeWhile (·.isDigit)
        if ds.length > 0 then
          match hdrop : rest.drop ds.length with
          | ']' :: rest2 => '/' :: ds ++ replaceBrackets rest2
          | _ => c :: replaceBrackets rest
        else c :: replaceBrackets rest
      else c :: replaceBrackets rest
termination_by l => l.length
decreasing_by
  · have hlen : rest2.length + 1 = (rest.drop ds.length).length := by rw [hdrop]; rfl
    have : (rest.drop ds.length).length ≤ rest.length := by
      rw [List.length_drop]; omega
    simp only [List.length_cons]
    omega
  all_goals simp only [List.length_cons]; omega

/-- The `instancePath` derived from a reference `sourcePath`
(registry.ts:158-160): `'root'` maps to `/`, otherwise dots become slashes,
bracketed indices become slash segments, and a leading slash is prepended. -/
def sourcePathToInstancePath (sp : String) : String :=
  if sp = "root" then "/"
  else "/" ++ String.mk (replaceBrackets (dotsToSlashes sp).toList)

/-- The `ValidationError` pushed for a missing GTS reference. -/
def mkRefError (ref : GtsRef) : ValidationError :=
  { instancePath := sourcePathToInstancePath ref.sourcePath
    schemaPath := "#"
    keyword := ""
    message := "GTS reference not found: " ++ ref.id
    params := { gtsId := some ref.id, sourcePath := some ref.sourcePath } }

/-- The reference-existence loop of `validateEntity` (registry.ts:151-170):
one error per reference whose id is a key of neither index, in order. -/
def refErrors (r : Registry) : List GtsRef → List ValidationError
  | [] => []
  | ref :: rest =>
      if mapHas r.jsonSchemas ref.id || mapHas r.jsonObjs ref.id then refErrors r rest
      else mkRefError ref :: refErrors r rest

/-- `JsonRegistry.resolveSchema` (registry.ts:365-368): lookup by identifier
only, no path fallback. -/
def resolveSchema (r : Registry) (schemaId : String) : Option Entity :=
  mapGet r.jsonSchemas schemaId

/-- `${x}` interpolation of a possibly-`undefined` value. -/
def optStr (o : Option String) : String := o.getD "undefined"

/-- `formatValidationErrors` on one Ajv error (registry.ts:259-308).
`allowedValues`/`limit` are carried as their rendered text (`JSON.stringify`
/ number-to-string happen at interpolation). -/
def formatOne (err : RawError) : ValidationError :=
  let instancePath := if err.instancePath = "" then "/" else err.instancePath
  let schemaPath := if err.schemaPath = "" then "#" else err.schemaPath
  let detailedMessage :=
    if err.keyword = "type" then "must be " ++ optStr err.typeParam
    else if err.keyword = "required" then
      "missing required property " ++ "'" ++ optStr err.missingProperty ++ "'"
    else if err.keyword = "additionalProperties" then
      "must NOT have additional property " ++ "'" ++ optStr err.additionalProperty ++ "'"
    else if err.keyword = "pattern" then
      "must match pattern \"" ++ optStr err.patternParam ++ "\""
    else if err.keyword = "enum" then "must be one of: " ++ optStr err.allowedValues
    else if err.keyword = "minimum" ∨ err.keyword = "maximum" then
      "must be " ++ optStr err.comparison ++ " " ++ optStr err.limit
    else if err.keyword = "minLength" ∨ err.keyword = "maxLength" then optStr err.message
    else if err.keyword = "minItems" ∨ err.keyword = "maxItems" then
      "must " ++ (if err.keyword = "minItems" then "NOT" else "") ++ " have " ++
        (if err.keyword = "minItems" then "fewer" else "more") ++ " than " ++
        optStr err.limit ++ " items"
    else if err.keyword = "anyOf" ∨ err.keyword = "oneOf" ∨ err.keyword = "allOf" then
      "must match " ++ err.keyword ++ " schema"
    else if err.keyword = "format" then
      "must match format \"" ++ optStr err.formatParam ++ "\""
    else (err.message).getD "Validation failed"
  { instancePath := instancePath
    schemaPath := schemaPath
    keyword := err.keyword
    message := detailedMessage
    params := { typeParam := err.typeParam, missingProperty := err.missingProperty
                additionalProperty := err.additionalProperty
                patternParam := err.patternParam, allowedValues := err.allowedValues
                limit := err.limit, comparison := err.comparison
                formatParam := err.formatParam }
    data := err.data }

/-- `formatValidationErrors`. -/
def formatValidationErrors (errs : List RawError) : List ValidationError :=
  errs.map formatOne

/-- Outcome of the Ajv compile/run block for a `JsonObj`
(`await ajv.compileAsync(schema.content)` then `validate(entity.content)`,
both inside one `try`). -/
inductive ObjOutcome where
  | threw (msg : String)
  | ran (valid : Bool) (errors : Option (List RawError))
  deriving DecidableEq, Repr

/-- The behaviour of the external Ajv capability on this entity's content:
`schemaCompile = some msg` means `compileAsync` of the entity's own schema
content threw with that message. -/
structure AjvBehavior where
  schemaCompile : Option String := none
  objOutcome : ObjOutcome := .ran true none
  deriving DecidableEq, Repr

/-- The synthetic error for a schema identifier with no registered schema. -/
def schemaNotFoundError (sid : String) : ValidationError :=
  { instancePath := "", schemaPath := "#", keyword := "schema"
    message := "Schema not found: " ++ sid
    params := { schemaId := some sid } }

/-- The synthetic error when compiling the entity's own schema content throws. -/
def schemaInvalidError (msg : String) : ValidationError :=
  { instancePath := "", schemaPath := "#", keyword := "schema"
    message := "Invalid JSON Schema: " ++ msg
    params := { errorText := some msg } }

/-- The synthetic error when the Ajv compile/run block throws for an object. -/
def validationThrewError (msg : String) : ValidationError :=
  { instancePath := "", schemaPath := "#", keyword := "validation"
    message := "Validation error: " ++ msg
    params := { errorText := some msg } }

/-- `JsonRegistry.validateEntity` (registry.ts:146-238) as a pure function
from the registry snapshot, the restricted-host flag (the
`acquireVsCodeApi`/`__GTS_APP_API__` capability sniff of lines 173-176), and
the Ajv behaviour to the entity's validation result.  The reference loop
leaves `valid = (no missing refs)` and `errors = the missing-ref errors`. -/
def validateEntity (r : Registry) (restricted : Bool) (ajv : AjvBehavior)
    (e : Entity) : ValidationResult :=
  let refErrs := refErrors r e.gtsRefs
  let v1 : ValidationResult := { valid := refErrs.isEmpty, errors := refErrs }
  if restricted then v1
  else
    match e.kind with
    | .schema =>
        match ajv.schemaCompile with
        | none => { valid := true, errors := v1.errors }
        | some msg =>
            { valid := false, errors := v1.errors ++ [schemaInvalidError msg] }
    | .obj =>
        match e.schemaId with
        | none => v1
        | some sid =>
            match resolveSchema r sid with
            | none =>
                { valid := false, errors := v1.errors ++ [schemaNotFoundError sid] }
            | some _ =>
                match ajv.objOutcome with
                | .threw msg =>
                    { valid := false, errors := v1.errors ++ [validationThrewError msg] }
                | .ran valid errs =>
                    if !valid then
                      match errs with
                      | some es => { valid := valid, errors := formatValidationErrors es }
                      | none => { valid := valid, errors := v1.errors }
                    else { valid := valid, errors := v1.errors }

/-- A "GTS reference not found" error for identifier `I`. -/
def isRefErrorFor (I : String) (er : ValidationError) : Bool :=
  er.keyword == "" && er.params.gtsId == some (I : String)

theorem refErrors_nil_of_present (r : Registry) (refs : List GtsRef)
    (h : ∀ rf ∈ refs, mapHas r.jsonSchemas rf.id = true ∨ mapHas r.jsonObjs rf.id = true) :
    refErrors r refs = [] := by
  induction refs with
  | nil => rfl
  | cons rf rest ih =>
      rw [refErrors]
      have hhas : (mapHas r.jsonSchemas rf.id || mapHas r.jsonObjs rf.id) = true := by
        rcases h rf (by simp) with h' | h' <;> simp [h']
      rw [if_pos hhas]
      exact ih fun rf' h' => h rf' (by simp [h'])

theorem refErrors_countP (r : Registry) (refs : List GtsRef) (I : String)
    (h1 : mapHas r.jsonSchemas I = false) (h2 : mapHas r.jsonObjs I = false) :
    (refErrors r refs).countP (isRefErrorFor I) = refs.countP (fun rf => rf.id == I) := by
  induction refs with
  | nil => rfl
  | cons rf rest ih =>
      rw [refErrors, List.countP_cons]
      by_cases hid : rf.id = I
      · have hhas : (mapHas r.jsonSchemas rf.id || mapHas r.jsonObjs rf.id) = false := by
          rw [hid, h1, h2]; rfl
        rw [if_neg (by simp [hhas]), List.countP_cons, ih]
        have hpred : isRefErrorFor I (mkRefError rf) = true := by
          simp [isRefErrorFor, mkRefError, hid]
        simp [hpred, hid]
      · have hpred : (rf.id == I) = false := by simp [hid]
        cases hhas : (mapHas r.jsonSchemas rf.id || mapHas r.jsonObjs rf.id)
        · rw [if_neg (by simp [hhas]), List.countP_cons, ih]
          have hpred2 : isRefErrorFor I (mkRefError rf) = false := by
            simp [isRefErrorFor, mkRefError, hid]
          simp [hpred2, hpred]
        · rw [if_pos rfl, ih]
          simp [hpred]

theorem mem_refErrors {r : Registry} {refs : List GtsRef} {er : ValidationError}
    (h : er ∈ refErrors r refs) :
    ∃ rf ∈ refs, er = mkRefError rf ∧
      mapHas r.jsonSchemas rf.id = false ∧ mapHas r.jsonObjs rf.id = false := by
  induction refs with
  | nil => simp [refErrors] at h
  | cons rf rest ih =>
      rw [refErrors] at h
      cases hhas : (mapHas r.jsonSchemas rf.id || mapHas r.jsonObjs rf.id)
      · rw [if_neg (by simp [hhas])] at h
        rcases List.mem_cons.mp h with rfl | h'
        · have hsplit := Bool.or_eq_false_iff.mp hhas
          exact ⟨rf, by simp, rfl, hsplit.1, hsplit.2⟩
        · obtain ⟨rf', hm, he, hs, ho⟩ := ih h'
          exact ⟨rf', by simp [hm], he, hs, ho⟩
      · rw [if_pos hhas] at h
        obtain ⟨rf', hm, he, hs, ho⟩ := ih h
        exact ⟨rf', by simp [hm], he, hs, ho⟩

theorem refErrors_mem_of {r : Registry} {refs : List GtsRef} {rf : GtsRef}
    (hrf : rf ∈ refs)
    (h1 : mapHas r.jsonSchemas rf.id = false) (h2 : mapHas r.jsonObjs rf.id = false) :
    mkRefError rf ∈ refErrors r refs := by
  induction refs with
  | nil => simp at hrf
  | cons rf0 rest ih =>
      rw [refErrors]
      rcases List.mem_cons.mp hrf with rfl | h'
      · rw [if_neg (by simp [h1, h2])]
        simp
      · cases hhas : (mapHas r.jsonSchemas rf0.id || mapHas r.jsonObjs rf0.id)
        · rw [if_neg (by simp [hhas])]
          exact List.mem_cons_of_mem _ (ih h')
        · rw [if_pos rfl]
          exact ih h'

theorem formatted_gtsId_none (es : List RawError) :
    ∀ er ∈ formatValidationErrors es, er.params.gtsId = none ∧ er.params.sourcePath = none := by
  intro er her
  obtain ⟨raw, _, hraw⟩ := List.mem_map.mp her
  rw [← hraw]
  exact ⟨rfl, rfl⟩

/-- The result errors of `validateEntity` are the reference errors followed
by at most one synthetic error without GTS-reference params — except in the
one branch where a failed Ajv run *replaces* the error list wholesale. -/
theorem validateEntity_shape (r : Registry) (restricted : Bool) (ajv : AjvBehavior)
    (e : Entity) :
    (∃ extra, (validateEntity r restricted ajv e).errors = refErrors r e.gtsRefs ++ extra ∧
       ∀ er ∈ extra, er.params.gtsId = none ∧ er.keyword ≠ "") ∨
    (restricted = false ∧ e.kind = .obj ∧
      (∃ sid, e.schemaId = some sid ∧ (resolveSchema r sid).isSome = true) ∧
      (∃ es, ajv.objOutcome = .ran false (some es) ∧
        (validateEntity r restricted ajv e).errors = formatValidationErrors es)) := by
  cases hrestr : restricted
  · cases hk : e.kind
    · cases hsi : e.schemaId with
      | none =>
          left
          exact ⟨[], by simp [validateEntity, hrestr, hk, hsi], by simp⟩
      | some sid =>
          cases hres : resolveSchema r sid with
          | none =>
              left
              refine ⟨[schemaNotFoundError sid],
                by simp [validateEntity, hrestr, hk, hsi, hres], ?_⟩
              intro er her
              simp only [List.mem_singleton] at her
              rw [her]
              exact ⟨rfl, by simp [schemaNotFoundError]⟩
          | some sch =>
              cases hout : ajv.objOutcome with
              | threw msg =>
                  left
                  refine ⟨[validationThrewError msg],
                    by simp [validateEntity, hrestr, hk, hsi, hres, hout], ?_⟩
                  intro er her
                  simp only [List.mem_singleton] at her
                  rw [her]
                  exact ⟨rfl, by simp [validationThrewError]⟩
              | ran valid errs =>
                  cases hv : valid
                  · cases herrs : errs with
                    | none =>
                        left
                        refine ⟨[], ?_, by simp⟩
                        simp [validateEntity, hrestr, hk, hsi, hres, hout, hv, herrs]
                    | some es =>
                        right
                        refine ⟨rfl, rfl, ⟨sid, rfl, by rw [hres]; rfl⟩, es, rfl, ?_⟩
                        simp [validateEntity, hrestr, hk, hsi, hres, hout, hv, herrs]
                  · left
                    refine ⟨[], ?_, by simp⟩
                    simp [validateEntity, hrestr, hk, hsi, hres, hout, hv]
    · cases hcomp : ajv.schemaCompile with
      | none =>
          left
          exact ⟨[], by simp [validateEntity, hrestr, hk, hcomp], by simp⟩
      | some msg =>
          left
          refine ⟨[schemaInvalidError msg],
            by simp [validateEntity, hrestr, hk, hcomp], ?_⟩
          intro er her
          simp only [List.mem_singleton] at her
          rw [her]
          exact ⟨rfl, by simp [schemaInvalidError]⟩
  · left
    exact ⟨[], by simp [validateEntity, hrestr], by simp⟩

theorem refErrors_keyword {r : Registry} {refs : List GtsRef} {er : ValidationError}
    (h : er ∈ refErrors r refs) : er.keyword = "" := by
  obtain ⟨rf, _, rfl, _⟩ := mem_refErrors h
  rfl

/-- A list whose `countP` for `rf.id == I` is 1 has only one element with
id `I`. -/
theorem unique_ref_eq {refs : List GtsRef} {I sp : String}
    (hmem : (⟨I, sp⟩ : GtsRef) ∈ refs)
    (hcount : refs.countP (fun rf => rf.id == I) = 1)
    {rf : GtsRef} (hrf : rf ∈ refs) (hid : rf.id = I) : rf = ⟨I, sp⟩ := by
  rw [List.countP_eq_length_filter] at hcount
  obtain ⟨x, hx⟩ := List.length_eq_one.mp hcount
  have hm1 : (⟨I, sp⟩ : GtsRef) ∈ refs.filter (fun rf => rf.id == I) := by
    rw [List.mem_filter]
    exact ⟨hmem, by simp⟩
  have hm2 : rf ∈ refs.filter (fun rf => rf.id == I) := by
    rw [List.mem_filter]
    exact ⟨hrf, by simp [hid]⟩
  rw [hx] at hm1 hm2
  simp only [List.mem_singleton] at hm1 hm2
  rw [hm2, ← hm1]

/-! ## Claims C2, C7 -/

/-- A schema entity registered under id `"s"` in file `"f"`. -/
def entS : Entity :=
  { kind := .schema, id := "s", schemaId := none, gtsRefs := [],
    filePath := "f", listSequence := none }

/-- A registry snapshot whose schema index holds only `"s"`. -/
def regC2 : Registry := { emptyRegistry with jsonSchemas := [("s", entS)] }

/-- An object declaring schema `"s"` with one dangling reference. -/
def entC2 : Entity :=
  { kind := .obj, id := "o", schemaId := some "s",
    gtsRefs := [⟨"missing", "a"⟩], filePath := "f", listSequence := none }

/-- One structural Ajv error reported by a failed run. -/
def rawC2 : RawError :=
  { instancePath := "/a", schemaPath := "#/properties/a", keyword := "type",
    message := some "must be number", typeParam := some "number" }

/-- Ajv behaviour: compile succeeds, the run reports invalid with `rawC2`. -/
def ajvC2 : AjvBehavior := { schemaCompile := none, objOutcome := .ran false (some [rawC2]) }

/-- C2 (counterexample): entity `entC2` has a reference to `"missing"`,
absent from both indices, yet after `validateEntity` in a non-restricted
host its error list contains zero "GTS reference not found" errors — the
failed structural run *replaced* the whole error list
(`entity.validation.errors = this.formatValidationErrors(...)`,
registry.ts:225). -/
theorem claim_C2_counterexample :
    mapHas regC2.jsonSchemas "missing" = false ∧
    mapHas regC2.jsonObjs "missing" = false ∧
    (GtsRef.mk "missing" "a") ∈ entC2.gtsRefs ∧
    (validateEntity regC2 false ajvC2 entC2).errors.countP (isRefErrorFor "missing") = 0 := by
  exact ⟨rfl, rfl, by simp [entC2], rfl⟩

/-- C2 (amended): for every entity E and outbound reference {id I, sourcePath
sp} (I occurring in exactly one reference of E), after validateEntity: if I
is a key of neither index then — unless E is an Obj whose declared schema
resolves and whose structural Ajv run reports failure with an error list, in
which case the formatted structural errors replace the whole list — the
result contains exactly one error with keyword "", message "GTS reference
not found: I", params.gtsId = I, params.sourcePath = sp, and instancePath the
slash-notation conversion of sp; if I is present, the result never contains
an error with params.gtsId = I.  The reference check itself runs even when
the restricted-host flag skips structural validation (the `restricted` flag
is arbitrary here). -/
theorem claim_C2_reference_check_amended (r : Registry) (restricted : Bool)
    (ajv : AjvBehavior) (e : Entity) (I sp : String)
    (hmem : (⟨I, sp⟩ : GtsRef) ∈ e.gtsRefs)
    (hcount : e.gtsRefs.countP (fun rf => rf.id == I) = 1) :
    ((mapHas r.jsonSchemas I = false → mapHas r.jsonObjs I = false →
      ¬(restricted = false ∧ e.kind = .obj ∧
        (∃ sid, e.schemaId = some sid ∧ (resolveSchema r sid).isSome = true) ∧
        (∃ es, ajv.objOutcome = .ran false (some es))) →
      ((validateEntity r restricted ajv e).errors.countP (isRefErrorFor I) = 1 ∧
       ∀ er ∈ (validateEntity r restricted ajv e).errors,
         isRefErrorFor I er = true →
           er.message = "GTS reference not found: " ++ I ∧
           er.instancePath = sourcePathToInstancePath sp ∧
           er.schemaPath = "#" ∧
           er.params.sourcePath = some sp))) ∧
    ((mapHas r.jsonSchemas I = true ∨ mapHas r.jsonObjs I = true) →
      (validateEntity r restricted ajv e).errors.countP
        (fun er => er.params.gtsId == some I) = 0) := by
  constructor
  · intro h1 h2 hnot
    rcases validateEntity_shape r restricted ajv e with ⟨extra, herr, hextra⟩ | hrepl
    · constructor
      · rw [herr, List.countP_append, refErrors_countP r _ I h1 h2, hcount]
        have hz : extra.countP (isRefErrorFor I) = 0 := by
          rw [List.countP_eq_zero]
          intro er hin
          have hkw := (hextra er hin).2
          simp [isRefErrorFor, hkw]
        rw [hz]
      · intro er hin hpred
        rw [herr] at hin
        rcases List.mem_append.mp hin with hin' | hin'
        · obtain ⟨rf, hrf, rfl, _, _⟩ := mem_refErrors hin'
          have hid : rf.id = I := by
            have := hpred
            simp [isRefErrorFor, mkRefError] at this
            exact this
          have heq : rf = ⟨I, sp⟩ := unique_ref_eq hmem hcount hrf hid
          rw [heq]
          exact ⟨rfl, rfl, rfl, rfl⟩
        · have hkw := (hextra er hin').2
          simp [isRefErrorFor, hkw] at hpred
    · exact absurd ⟨hrepl.1, hrepl.2.1, hrepl.2.2.1,
        hrepl.2.2.2.choose, hrepl.2.2.2.choose_spec.1⟩ hnot
  · intro hpres
    rcases validateEntity_shape r restricted ajv e with ⟨extra, herr, hextra⟩ | hrepl
    · rw [herr, List.countP_append]
      have hz1 : (refErrors r e.gtsRefs).countP (fun er => er.params.gtsId == some I) = 0 := by
        rw [List.countP_eq_zero]
        intro er hin
        obtain ⟨rf, _, rfl, hs, ho⟩ := mem_refErrors hin
        simp only [mkRefError, beq_iff_eq, Option.some.injEq]
        intro hid
        rw [hid] at hs ho
        rcases hpres with hp | hp
        · rw [hp] at hs; exact absurd hs (by simp)
        · rw [hp] at ho; exact absurd ho (by simp)
      have hz2 : extra.countP (fun er => er.params.gtsId == some I) = 0 := by
        rw [List.countP_eq_zero]
        intro er hin
        simp [(hextra er hin).1]
      rw [hz1, hz2]
    · obtain ⟨es, _, herr⟩ := hrepl.2.2.2
      rw [herr, List.countP_eq_zero]
      intro er hin
      simp [(formatted_gtsId_none es er hin).1]

/-- The `⟨"missing", "contact.gtsIid"⟩` reference for the C2 witness. -/
def entC2W : Entity :=
  { kind := .obj, id := "o", schemaId := none,
    gtsRefs := [⟨"missing", "contact.gtsIid"⟩], filePath := "f", listSequence := none }

/-- C2 witness: with no declared schema and the dangling reference
`"missing"` (source path `contact.gtsIid`), exactly one reference error is
produced. -/
theorem claim_C2_amended_witness :
    (validateEntity regC2 false {} entC2W).errors.countP (isRefErrorFor "missing") = 1 := by
  have h := claim_C2_reference_check_amended regC2 false {} entC2W "missing" "contact.gtsIid"
    (by simp [entC2W]) (by rfl)
  refine (h.1 rfl rfl ?_).1
  rintro ⟨-, -, ⟨sid, hsid, -⟩, -⟩
  simp [entC2W] at hsid

/-- C7: for an Obj entity in a non-restricted host: with no declared schema
identifier and all references resolving, the result is valid with an empty
error list; with a declared schema identifier absent from the schema index,
the result is invalid with exactly one keyword-"schema" error carrying
params.schemaId, and the Ajv capability is never consulted (the result is
the same for every Ajv behaviour). -/
theorem claim_C7_obj_schema_resolution (r : Registry) (ajv : AjvBehavior) (e : Entity)
    (hkind : e.kind = .obj) :
    ((e.schemaId = none ∧
      ∀ rf ∈ e.gtsRefs, mapHas r.jsonSchemas rf.id = true ∨ mapHas r.jsonObjs rf.id = true) →
      validateEntity r false ajv e = { valid := true, errors := [] }) ∧
    (∀ sid, e.schemaId = some sid → mapHas r.jsonSchemas sid = false →
      (validateEntity r false ajv e).valid = false ∧
      (validateEntity r false ajv e).errors.countP (fun er => er.keyword == "schema") = 1 ∧
      (∀ er ∈ (validateEntity r false ajv e).errors, er.keyword = "schema" →
        er.params.schemaId = some sid ∧ er.message = "Schema not found: " ++ sid) ∧
      (∀ ajv2 : AjvBehavior, validateEntity r false ajv2 e = validateEntity r false ajv e)) := by
  constructor
  · rintro ⟨hsid, hall⟩
    have hre : refErrors r e.gtsRefs = [] := refErrors_nil_of_present r _ hall
    simp [validateEntity, hkind, hsid, hre]
  · intro sid hsid hmiss
    have hres : resolveSchema r sid = none := by
      rw [resolveSchema, ← mapHas_eq_false_iff]
      exact hmiss
    have hval : ∀ a : AjvBehavior, validateEntity r false a e =
        { valid := false, errors := refErrors r e.gtsRefs ++ [schemaNotFoundError sid] } := by
      intro a
      simp [validateEntity, hkind, hsid, hres]
    refine ⟨by rw [hval], ?_, ?_, fun ajv2 => by rw [hval, hval]⟩
    · rw [hval, List.countP_append]
      have hz : (refErrors r e.gtsRefs).countP (fun er => er.keyword == "schema") = 0 := by
        rw [List.countP_eq_zero]
        intro er hin
        simp [refErrors_keyword hin]
      rw [hz]
      rfl
    · intro er hin hkw
      rw [hval] at hin
      rcases List.mem_append.mp hin with hin' | hin'
      · rw [refErrors_keyword hin'] at hkw
        exact absurd hkw.symm (by simp)
      · simp only [List.mem_singleton] at hin'
        rw [hin']
        exact ⟨rfl, rfl⟩

/-- An object with no schema id and one resolvable reference to `"s"`. -/
def entC7W : Entity :=
  { kind := .obj, id := "o", schemaId := none,
    gtsRefs := [⟨"s", "root"⟩], filePath := "f", listSequence := none }

/-- C7 witness: the object with a resolvable reference and no declared
schema validates clean. -/
theorem claim_C7_witness :
    validateEntity regC2 false {} entC7W = { valid := true, errors := [] } := by
  refine (claim_C7_obj_schema_resolution regC2 {} entC7W rfl).1 ⟨rfl, ?_⟩
  intro rf hrf
  simp [entC7W] at hrf
  rw [hrf]
  left
  rfl

/-! ## Fetch cache (`fetchJson`, registry.ts:56-66) -/

/-- A settled retrieval as it sits in the cache: the cached promise either
resolved with the JSON body or rejected with the thrown error message. -/
inductive FetchOutcome where
  | success (body : String)
  | failure (message : String)
  deriving DecidableEq, Repr

/-- The `fetch` response fields `fetchJson` reads. -/
structure FetchResult where
  ok : Bool
  status : Nat
  statusText : String
  body : String
  deriving DecidableEq, Repr

/-- The `fetchCache` map. -/
abbrev FetchCache := AList FetchOutcome

/-- Key normalisation: repo-relative paths get a leading `/`. -/
def normalizeFetchKey (path : String) : String :=
  match path.toList with
  | '/' :: _ => path
  | _ => "/" ++ path

/-- `JsonRegistry.fetchJson` with the ambient `fetch` as a parameter.
Returns the outcome the caller awaits, the updated cache, and whether a new
retrieval was started.  `if (!force && has(key)) return get(key)!` is the
cache-hit branch (`has` ↔ `get` is `some`); otherwise the new promise is
stored under the key — also when it rejects, which is what keeps a failure
cached. -/
def fetchJson (cache : FetchCache) (fetchFn : String → FetchResult)
    (path : String) (force : Bool) : FetchOutcome × FetchCache × Bool :=
  let key := normalizeFetchKey path
  if force then fetchFresh cache fetchFn path key
  else
    match mapGet cache key with
    | some cached => (cached, cache, false)
    | none => fetchFresh cache fetchFn path key
where
  /-- The promise body: non-ok responses throw
  `Failed to fetch ${path}: ${status} ${statusText}`; the promise is cached
  before being returned. -/
  fetchFresh (cache : FetchCache) (fetchFn : String → FetchResult)
      (path key : String) : FetchOutcome × FetchCache × Bool :=
    let res := fetchFn key
    let outcome : FetchOutcome :=
      if res.ok then .success res.body
      else .failure ("Failed to fetch " ++ path ++ ": " ++ toString res.status ++ " " ++
        res.statusText)
    (outcome, mapSet cache key outcome, true)

/-- Whenever `fetchJson` actually starts a retrieval, its outcome is cached
under the normalized key. -/
theorem fetchJson_cache_get (cache : FetchCache) (fetchFn : String → FetchResult)
    (path : String) (force : Bool)
    (h : (fetchJson cache fetchFn path force).2.2 = true) :
    mapGet (fetchJson cache fetchFn path force).2.1 (normalizeFetchKey path) =
      some (fetchJson cache fetchFn path force).1 := by
  by_cases hforce : force = true
  · rw [hforce] at h ⊢
    simp [fetchJson, fetchJson.fetchFresh]
  · have hf : force = false := by simpa using hforce
    rw [hf] at h ⊢
    cases hget : mapGet cache (normalizeFetchKey path) with
    | some cached => simp [fetchJson, hget] at h
    | none => simp [fetchJson, fetchJson.fetchFresh, hget]

/-- A cache hit without `force` returns the cached outcome unchanged. -/
theorem fetchJson_hit (cache : FetchCache) (fetchFn : String → FetchResult)
    (path : String) {o : FetchOutcome}
    (hget : mapGet cache (normalizeFetchKey path) = some o) :
    fetchJson cache fetchFn path false = (o, cache, false) := by
  simp [fetchJson, hget]

/-- With `force` set the cache is bypassed and a fresh retrieval runs. -/
theorem fetchJson_force (cache : FetchCache) (fetchFn : String → FetchResult)
    (path : String) :
    fetchJson cache fetchFn path true =
      fetchJson.fetchFresh cache fetchFn path (normalizeFetchKey path) := by
  simp [fetchJson]

/-- C10: when a retrieval fails, the rejected outcome stays cached under the
normalized key: every later `fetchJson` for any path with the same
normalized key and `force` unset returns the same failure without a new
retrieval and leaves the cache unchanged, whatever the ambient fetch now
does; a call with `force` set performs a new retrieval and replaces the
cached entry with its outcome. -/
theorem claim_C10_failure_cached (cache : FetchCache) (fetchFn fetchFn2 : String → FetchResult)
    (path path2 : String) (force : Bool) (m : String)
    (hkey : normalizeFetchKey path2 = normalizeFetchKey path)
    (hfetched : (fetchJson cache fetchFn path force).2.2 = true)
    (hout : (fetchJson cache fetchFn path force).1 = .failure m) :
    (fetchJson (fetchJson cache fetchFn path force).2.1 fetchFn2 path2 false =
      (.failure m, (fetchJson cache fetchFn path force).2.1, false)) ∧
    ((fetchJson (fetchJson cache fetchFn path force).2.1 fetchFn2 path2 true).2.2 = true ∧
      mapGet (fetchJson (fetchJson cache fetchFn path force).2.1 fetchFn2 path2 true).2.1
          (normalizeFetchKey path) =
        some (fetchJson (fetchJson cache fetchFn path force).2.1 fetchFn2 path2 true).1) := by
  have hcache : mapGet (fetchJson cache fetchFn path force).2.1 (normalizeFetchKey path) =
      some (.failure m) := by
    rw [fetchJson_cache_get cache fetchFn path force hfetched, hout]
  constructor
  · have hget2 : mapGet (fetchJson cache fetchFn path force).2.1 (normalizeFetchKey path2) =
        some (.failure m) := by rw [hkey]; exact hcache
    exact fetchJson_hit _ fetchFn2 path2 hget2
  · constructor
    · rw [fetchJson_force]
      rfl
    · rw [← hkey, fetchJson_force]
      simp [fetchJson.fetchFresh]

/-- C10 witness: a 404 on `"a"` caches the failure; the repeat call (here
with a fetch that would succeed) returns the same failure without fetching. -/
theorem claim_C10_witness :
    fetchJson (fetchJson [] (fun _ => ⟨false, 404, "Not Found", ""⟩) "a" false).2.1
        (fun _ => ⟨true, 200, "OK", "{}"⟩) "a" false =
      (.failure "Failed to fetch a: 404 Not Found",
       (fetchJson [] (fun _ => ⟨false, 404, "Not Found", ""⟩) "a" false).2.1, false) :=
  (claim_C10_failure_cached [] (fun _ => ⟨false, 404, "Not Found", ""⟩)
    (fun _ => ⟨true, 200, "OK", "{}"⟩) "a" "a" false "Failed to fetch a: 404 Not Found"
    rfl rfl rfl).1

/-! ## Error surfacing (`validateOpenDocument`, the sibling-prefix loop) -/

/-- `instancePath.replace(/^\//, '')`: one leading slash removed. -/
def stripLeadingSlash (s : String) : String :=
  match s.toList with
  | c :: rest => if c = '/' then String.mk rest else s
  | [] => s

/-- The per-error path adjustment for an entity with a `listSequence`
(the `adjustedErrors` map of `validateOpenDocument`). -/
def adjustError (seq : Nat) (err : ValidationError) : ValidationError :=
  let normalizedPath := stripLeadingSlash err.instancePath
  let newPath :=
    if normalizedPath ≠ "" then "/" ++ toString seq ++ "/" ++ normalizedPath
    else "/" ++ toString seq
  { err with instancePath := newPath }

/-- An entity of the displayed file as the surfacing loop reads it:
`listSequence` and its validation errors. -/
structure SurfacedEntity where
  listSequence : Option Nat
  errors : List ValidationError
  deriving DecidableEq, Repr

/-- The `for (const e of [...fileObjs, ...fileSchemas])` loop that gathers
the errors surfaced for the document. -/
def collectFileErrors (ents : List SurfacedEntity) : List ValidationError :=
  ents.foldl
    (fun acc e =>
      if e.errors.length > 0 then
        match e.listSequence with
        | some seq => acc ++ e.errors.map (adjustError seq)
        | none => acc ++ e.errors
      else acc)
    []

/-- A root-level error as the pipeline reports it (`instancePath` `/`). -/
def errRootC4 : ValidationError :=
  { instancePath := "/", schemaPath := "#", keyword := "required"
    message := "missing required property 'id'"
    params := { missingProperty := some "id" } }

/-- C4 (counterexample): an error originally reported at `/` on the entity
at array index 2 is surfaced with instancePath `/2`, not the claim's
`"/" + listSequence + originalPath = "/2/"`. -/
theorem claim_C4_counterexample :
    (collectFileErrors [⟨some 2, [errRootC4]⟩]).map (·.instancePath) = ["/2"] ∧
    ("/2" : String) ≠ "/" ++ toString 2 ++ "/" := by
  exact ⟨rfl, by decide⟩

/-- C4 (amended): for an entity with `listSequence = seq`, an error whose
originally reported path is empty or the bare `/` is surfaced with
instancePath `"/" ++ seq`; an error whose original path carries a leading
slash and more is surfaced with instancePath `"/" ++ seq ++ originalPath`
(the claim's concatenation); and the surfacing loop applies exactly this
adjustment to each error of the entity. -/
theorem claim_C4_sibling_prefix_amended (seq : Nat) (err : ValidationError) (rest : String) :
    ((err.instancePath = "" ∨ err.instancePath = "/") →
      (adjustError seq err).instancePath = "/" ++ toString seq) ∧
    (err.instancePath = "/" ++ rest → rest ≠ "" →
      (adjustError seq err).instancePath = "/" ++ toString seq ++ err.instancePath) ∧
    (collectFileErrors [⟨some seq, [err]⟩] = [adjustError seq err]) := by
  refine ⟨?_, ?_, rfl⟩
  · rintro (h | h) <;>
      (first
        | (have h1 : stripLeadingSlash err.instancePath = "" := by rw [h]; rfl
           simp [adjustError, h1]))
  · intro h hne
    have h1 : stripLeadingSlash ("/" ++ rest) = rest := by
      unfold stripLeadingSlash
      have hl : ("/" ++ rest).toList = '/' :: rest.toList := by simp [String.toList]
      rw [hl]
      simp
    simp only [adjustError, h, h1]
    rw [if_pos hne, String.append_assoc]

/-- C4 witness: an error at `/payload/x` on the entity at index 2 is
surfaced at `/2/payload/x`. -/
theorem claim_C4_witness :
    (adjustError 2 { instancePath := "/payload/x", schemaPath := "#", keyword := "type"
                     message := "must be number" }).instancePath =
      "/" ++ toString 2 ++ "/payload/x" :=
  (claim_C4_sibling_prefix_amended 2
    { instancePath := "/payload/x", schemaPath := "#", keyword := "type"
      message := "must be number" } "payload/x").2.1 rfl (by decide)

/-! ## Source position locator (`findErrorPosition` and helpers)

The locator works on the raw document text as a `List Char`; a VS Code
`Range` becomes a pair of character offsets (`document.positionAt` /
`offsetAt` translate bijectively, and every produced range lies on one line
since it never crosses a newline). -/

/-- A text range as a pair of character offsets, end exclusive. -/
structure TextRange where
  start : Nat
  stop : Nat
  deriving DecidableEq, Repr

/-- JS `\s` on the ASCII range (space, tab, newline, CR, FF, VT). -/
def jsWs (c : Char) : Bool :=
  c = ' ' || c = '\t' || c = '\n' || c = '\r' || c = '\x0c' || c = '\x0b'

/-- `["']` — either quote character. -/
def isQuoteChar (c : Char) : Bool := c = '"' || c = '\''

/-- Matcher for `/\{/` at the current position. -/
def mBrace : List Char → Option Nat
  | c :: _ => if c = '{' then some 1 else none
  | [] => none

/-- Matcher for `["']key["']\s*:` at the current position; returns the
matched length (the regex built with `escapeRegex` matches the key text
literally). -/
def mKeyColon (key : List Char) (l : List Char) : Option Nat :=
  match l with
  | q1 :: rest =>
      if isQuoteChar q1 ∧ rest.take key.length = key then
        match rest.drop key.length with
        | q2 :: rest2 =>
            if isQuoteChar q2 then
              let ws := (rest2.takeWhile jsWs).length
              match rest2.drop ws with
              | ':' :: _ => some (key.length + ws + 3)
              | _ => none
            else none
        | [] => none
      else none
  | [] => none

/-- Matcher for `["']key["']\s*:\s*\{` at the current position. -/
def mKeyColonBrace (key : List Char) (l : List Char) : Option Nat :=
  match mKeyColon key l with
  | some len =>
      let ws2 := ((l.drop len).takeWhile jsWs).length
      match (l.drop len).drop ws2 with
      | '{' :: _ => some (len + ws2 + 1)
      | _ => none
  | none => none

/-- Matcher for `"type"\s*:\s*"value"` (double quotes only). -/
def mTypeValue (value : List Char) (l : List Char) : Option Nat :=
  match l with
  | '"' :: 't' :: 'y' :: 'p' :: 'e' :: '"' :: rest =>
      let ws1 := (rest.takeWhile jsWs).length
      match rest.drop ws1 with
      | ':' :: rest2 =>
          let ws2 := (rest2.takeWhile jsWs).length
          match rest2.drop ws2 with
          | '"' :: rest3 =>
              if rest3.take value.length = value ∧
                  (rest3.drop value.length).head? = some '"' then
                some (ws1 + ws2 + value.length + 9)
              else none
          | _ => none
      | _ => none
  | _ => none

/-- Matcher for `"key"\s*:\s*"([^"]+)"`: the double-quoted key, a colon,
then a double-quoted non-empty value. -/
def mKeyStringValue (key : List Char) (l : List Char) : Option Nat :=
  match l with
  | '"' :: rest =>
      if rest.take key.length = key then
        match rest.drop key.length with
        | '"' :: rest2 =>
            let ws1 := (rest2.takeWhile jsWs).length
            match rest2.drop ws1 with
            | ':' :: rest3 =>
                let ws2 := (rest3.takeWhile jsWs).length
                match rest3.drop ws2 with
                | '"' :: rest4 =>
                    let v := (rest4.takeWhile (· ≠ '"')).length
                    if v > 0 ∧ (rest4.drop v).head? = some '"' then
                      some (key.length + ws1 + ws2 + v + 5)
                    else none
                | _ => none
            | _ => none
        | _ => none
      else none
  | _ => none

/-- `"id"\s*:\s*"([^"]+)"`. -/
def mIdField : List Char → Option Nat := mKeyStringValue ['i', 'd']

/-- `"type"\s*:\s*"([^"]+)"`. -/
def mTypeField : List Char → Option Nat := mKeyStringValue ['t', 'y', 'p', 'e']

/-- `RegExp.exec`: the first position (with matched length) where the
matcher fires, scanning left to right. -/
def rexec (f : List Char → Option Nat) : List Char → Option (Nat × Nat)
  | [] => none
  | l@(_ :: rest) =>
      match f l with
      | some len => some (0, len)
      | none => (rexec f rest).map (fun p => (p.1 + 1, p.2))

/-- Scanner state of the hand-rolled array walk (`findNthObjectInArray`,
`findNthObjectBracePosition`): brace depth (an Int — the code decrements
below zero on malformed input), nested bracket depth, completed-object
count, string and escape flags. -/
structure ScanSt where
  braceCount : Int
  bracketCount : Nat
  objectCount : Nat
  inString : Bool
  escapeNext : Bool
  deriving DecidableEq, Repr

/-- The state at the character after the root `[`. -/
def initScanSt : ScanSt := ⟨0, 0, 0, false, false⟩

/-- The character loop of `findNthObjectInArray`, over the remaining text
with `i` the absolute index of its head. -/
def findNthLoop (index : Nat) (hb : Bool) : List Char → Nat → ScanSt → Option TextRange
  | [], _, _ => none
  | c :: rest, i, st =>
      if st.escapeNext then
        findNthLoop index hb rest (i + 1) { st with escapeNext := false }
      else if c = '\\' ∧ st.inString then
        findNthLoop index hb rest (i + 1) { st with escapeNext := true }
      else if c = '"' then
        findNthLoop index hb rest (i + 1) { st with inString := !st.inString }
      else if st.inString then
        findNthLoop index hb rest (i + 1) st
      else if c = '[' then
        findNthLoop index hb rest (i + 1) { st with bracketCount := st.bracketCount + 1 }
      else if c = ']' then
        if st.bracketCount > 0 then
          findNthLoop index hb rest (i + 1) { st with bracketCount := st.bracketCount - 1 }
        else none
      else if c = '{' then
        if st.braceCount = 0 ∧ st.bracketCount = 0 then
          if st.objectCount = index then
            -- `text.substring(currentObjectStart, i + 1)` with
            -- `currentObjectStart = i`: the ONE-character slice at the
            -- current position (the substring never includes the object
            -- body, so the id/type scans below can never match)
            let objectText := (c :: rest).take 1
            if hb then some ⟨i, i + 1⟩
            else
              match rexec mIdField objectText with
              | some (j, _) => some ⟨i + j + 1, i + j + 3⟩
              | none =>
                  match rexec mTypeField objectText with
                  | some (j, _) => some ⟨i + j + 1, i + j + 5⟩
                  | none => some ⟨i, i + 1⟩
          else
            findNthLoop index hb rest (i + 1) { st with braceCount := st.braceCount + 1 }
        else
          findNthLoop index hb rest (i + 1) { st with braceCount := st.braceCount + 1 }
      else if c = '}' then
        if st.braceCount - 1 = 0 ∧ st.bracketCount = 0 then
          findNthLoop index hb rest (i + 1)
            { st with braceCount := st.braceCount - 1, objectCount := st.objectCount + 1 }
        else
          findNthLoop index hb rest (i + 1) { st with braceCount := st.braceCount - 1 }
      else
        findNthLoop index hb rest (i + 1) st

/-- `findNthObjectInArray`: skip leading whitespace, require `[`, scan. -/
def findNthObjectInArray (text : List Char) (index : Nat) (hb : Bool) : Option TextRange :=
  let ws := (text.takeWhile jsWs).length
  match text.drop ws with
  | c :: rest => if c = '[' then findNthLoop index hb rest (ws + 1) initScanSt else none
  | [] => none

/-- The character loop of `findNthObjectBracePosition` — the same walk, but
it always returns the opening-brace position of the target object. -/
def findNthBraceLoop (index : Nat) : List Char → Nat → ScanSt → Option TextRange
  | [], _, _ => none
  | c :: rest, i, st =>
      if st.escapeNext then
        findNthBraceLoop index rest (i + 1) { st with escapeNext := false }
      else if c = '\\' ∧ st.inString then
        findNthBraceLoop index rest (i + 1) { st with escapeNext := true }
      else if c = '"' then
        findNthBraceLoop index rest (i + 1) { st with inString := !st.inString }
      else if st.inString then
        findNthBraceLoop index rest (i + 1) st
      else if c = '[' then
        findNthBraceLoop index rest (i + 1) { st with bracketCount := st.bracketCount + 1 }
      else if c = ']' then
        if st.bracketCount > 0 then
          findNthBraceLoop index rest (i + 1) { st with bracketCount := st.bracketCount - 1 }
        else none
      else if c = '{' then
        if st.braceCount = 0 ∧ st.bracketCount = 0 then
          if st.objectCount = index then some ⟨i, i + 1⟩
          else
            findNthBraceLoop index rest (i + 1) { st with braceCount := st.braceCount + 1 }
        else
          findNthBraceLoop index rest (i + 1) { st with braceCount := st.braceCount + 1 }
      else if c = '}' then
        if st.braceCount - 1 = 0 ∧ st.bracketCount = 0 then
          findNthBraceLoop index rest (i + 1)
            { st with braceCount := st.braceCount - 1, objectCount := st.objectCount + 1 }
        else
          findNthBraceLoop index rest (i + 1) { st with braceCount := st.braceCount - 1 }
      else
        findNthBraceLoop index rest (i + 1) st

/-- `findNthObjectBracePosition`. -/
def findNthObjectBracePosition (text : List Char) (index : Nat) : Option TextRange :=
  let ws := (text.takeWhile jsWs).length
  match text.drop ws with
  | c :: rest => if c = '[' then findNthBraceLoop index rest (ws + 1) initScanSt else none
  | [] => none

/-- The balanced-brace scan shared by `findObjectTextAtPosition` and
`findPropertyValueText`: starting at an opening `{` (brace count 0 — the
sources start one character later with count 1, which is the same state),
the exclusive end offset of the balanced object, tracking string and escape
state. -/
def balLoop : List Char → Nat → Int → Bool → Bool → Option Nat
  | [], _, _, _, _ => none
  | c :: rest, i, bc, inS, esc =>
      if esc then balLoop rest (i + 1) bc inS false
      else if c = '\\' ∧ inS then balLoop rest (i + 1) bc inS true
      else if c = '"' then balLoop rest (i + 1) bc (!inS) esc
      else if inS then balLoop rest (i + 1) bc inS esc
      else if c = '{' then balLoop rest (i + 1) (bc + 1) inS esc
      else if c = '}' then
        if bc - 1 = 0 then some (i + 1)
        else balLoop rest (i + 1) (bc - 1) inS esc
      else balLoop rest (i + 1) bc inS esc

/-- Exclusive end of the balanced braces of a list starting at `{`. -/
def balEnd (l : List Char) : Option Nat := balLoop l 0 0 false false

/-- `findObjectTextAtPosition`: find the first `{` at or after `startPos`
(plain scan, no string awareness in this first phase), then extract the
balanced object text and its absolute start offset. -/
def findObjectTextAtPosition (text : List Char) (startPos : Nat) :
    Option (List Char × Nat) :=
  match rexec mBrace (text.drop startPos) with
  | none => none
  | some (j, _) =>
      let objectStart := startPos + j
      match balEnd (text.drop objectStart) with
      | some e => some ((text.drop objectStart).take e, objectStart)
      | none => none

/-- `findPropertyValueText`: skip whitespace; an object value yields its
balanced text, anything else yields `null`. -/
def findPropertyValueText (l : List Char) : Option (List Char) :=
  let ws := (l.takeWhile jsWs).length
  match (l.drop ws).head? with
  | some '{' => (balEnd (l.drop ws)).map (fun e => (l.drop ws).take e)
  | _ => none

/-- `path.split('/')` with its accumulator (JS `String.prototype.split`
with a one-character separator). -/
def splitSlashAux : List Char → List Char → List String
  | [], cur => [String.mk cur.reverse]
  | c :: rest, cur =>
      if c = '/' then String.mk cur.reverse :: splitSlashAux rest []
      else splitSlashAux rest (c :: cur)

/-- `path.split('/')`. -/
def jsSplitSlash (s : String) : List String := splitSlashAux s.toList []

/-- `segments.join('/')`. -/
def jsJoinSlash (segs : List String) : String :=
  String.mk (List.intercalate ['/'] (segs.map String.toList))

/-- `/^\d+$/.test seg`. -/
def isDigitSeg (s : String) : Bool := s ≠ "" && s.toList.all (·.isDigit)

/-- `parseInt(seg, 10)` on an all-digit segment. -/
def parseIndex (s : String) : Nat :=
  s.toList.foldl (fun n c => n * 10 + (c.toNat - 48)) 0

/-- The segment loop of `findPropertyInText`: search the quoted key, return
the key range for the last segment, else descend into the extracted value
with `valueStart` as the new base offset (verbatim including the offset
arithmetic of the source). -/
def fpiLoop : List String → List Char → Nat → Option TextRange
  | [], _, _ => none
  | seg :: rest, curText, curOffset =>
      match rexec (mKeyColon seg.toList) curText with
      | none => none
      | some (idx, mlen) =>
          if rest = [] then
            some ⟨curOffset + idx + 1, curOffset + idx + 1 + seg.length⟩
          else
            let valueStart := curOffset + idx + mlen
            match findPropertyValueText (curText.drop (idx + mlen)) with
            | none => none
            | some vtext => fpiLoop rest vtext valueStart

/-- `findPropertyInText`: non-empty, non-numeric segments only. -/
def findPropertyInText (text : List Char) (baseOffset : Nat) (path : String) :
    Option TextRange :=
  let segments := (jsSplitSlash path).filter (fun s => s.length > 0 && !(isDigitSeg s))
  if segments = [] then none
  else fpiLoop segments text baseOffset

/-- `findPropertyAtPath`. -/
def findPropertyAtPath (text : List Char) (path : String) : Option TextRange :=
  let segments := jsSplitSlash path
  if segments.length > 0 ∧ isDigitSeg (segments.headD "") then
    let arrayIndex := parseIndex (segments.headD "")
    if segments.length > 1 then
      match findNthObjectBracePosition text arrayIndex with
      | none => none
      | some r =>
          match findObjectTextAtPosition text r.start with
          | none => none
          | some (otext, ostart) =>
              findPropertyInText otext ostart (jsJoinSlash (segments.drop 1))
    else findNthObjectInArray text arrayIndex false
  else findPropertyInText text 0 path

/-- `findTypeFieldByValue`: highlight the `"type"` key of the first
`"type": "<value>"` occurrence. -/
def findTypeFieldByValue (text : List Char) (typeValue : List Char) : Option TextRange :=
  match rexec (mTypeValue typeValue) text with
  | some (j, _) => some ⟨j + 1, j + 5⟩
  | none => none

/-- `instancePath.replace(/^\//, '').replace(/\/$/, '')`. -/
def stripTrailingSlash (s : String) : String :=
  match s.toList.reverse with
  | '/' :: r => String.mk r.reverse
  | _ => s

/-- The normalized path `findErrorPosition` works with. -/
def normalizePath (instancePath : String) : String :=
  stripTrailingSlash (stripLeadingSlash instancePath)

/-- `findErrorPosition`: keyword-directed dispatch with sequential
fall-through — each branch that finds no range falls to the next. -/
def findErrorPosition (text : List Char) (err : ValidationError) : Option TextRange :=
  let path := normalizePath err.instancePath
  let schemaRes : Option TextRange :=
    if err.keyword = "schema" then
      if path = "" then
        match err.params.schemaId with
        | some sid => findTypeFieldByValue text sid.toList
        | none => none
      else findObjectAtPath text path false
    else none
  let addRes : Option TextRange :=
    if err.keyword = "additionalProperties" then
      match err.params.additionalProperty with
      | some prop =>
          match rexec (mKeyColon prop.toList) text with
          | some (j, _) => some ⟨j + 1, j + 1 + prop.length⟩
          | none => none
      | none => none
    else none
  let reqRes : Option TextRange :=
    if err.keyword = "required" then
      match err.params.missingProperty with
      | some _ =>
          if path = "" then
            match rexec mBrace text with
            | some (j, _) => some ⟨j, j + 1⟩
            | none => none
          else findObjectAtPath text path true
      | none => none
    else none
  let genRes : Option TextRange :=
    if path ≠ "" then findPropertyAtPath text path else none
  schemaRes <|> addRes <|> reqRes <|> genRes
where
  /-- `findObjectAtPath`. -/
  findObjectAtPath (text : List Char) (path : String) (highlightBrace : Bool) :
      Option TextRange :=
    if path = "" then
      match rexec mBrace text with
      | some (j, _) => some ⟨j, j + 1⟩
      | none => none
    else
      let segments := jsSplitSlash path
      if segments.length = 1 ∧ isDigitSeg (segments.headD "") then
        findNthObjectInArray text (parseIndex (segments.headD "")) highlightBrace
      else
        let lastSegment := segments.getLastD ""
        if isDigitSeg lastSegment then
          findNthObjectInArray text (parseIndex lastSegment) false
        else
          match rexec (mKeyColonBrace lastSegment.toList) text with
          | some (j, _) => some ⟨j + 1, j + 1 + lastSegment.length⟩
          | none => none

/-! ### Properties of `rexec` and the matchers -/

theorem rexec_some {f : List Char → Option Nat} :
    ∀ {l : List Char} {j len : Nat}, rexec f l = some (j, len) →
      f (l.drop j) = some len ∧ ∀ k < j, f (l.drop k) = none := by
  intro l
  induction l with
  | nil => intro j len h; simp [rexec] at h
  | cons c rest ih =>
      intro j len h
      rw [rexec] at h
      cases hf : f (c :: rest) with
      | some len0 =>
          rw [hf] at h
          obtain ⟨hj, hlen⟩ : j = 0 ∧ len0 = len := by
            constructor <;> (cases h; rfl)
          subst hj; subst hlen
          exact ⟨hf, by omega⟩
      | none =>
          rw [hf] at h
          simp only [Option.map_eq_some'] at h
          obtain ⟨⟨j', len'⟩, hrec, heq⟩ := h
          obtain ⟨hj, hlen⟩ : j = j' + 1 ∧ len' = len := by
            constructor <;> (cases heq; rfl)
          subst hj; subst hlen
          obtain ⟨h1, h2⟩ := ih hrec
          refine ⟨h1, ?_⟩
          intro k hk
          cases k with
          | zero => exact hf
          | succ k' => exact h2 k' (by omega)

theorem rexec_none {f : List Char → Option Nat} (h0 : f [] = none) :
    ∀ {l : List Char}, rexec f l = none → ∀ k, f (l.drop k) = none := by
  intro l
  induction l with
  | nil => intro _ k; simpa using h0
  | cons c rest ih =>
      intro h k
      rw [rexec] at h
      cases hf : f (c :: rest) with
      | some len0 => rw [hf] at h; simp at h
      | none =>
          rw [hf] at h
          simp only [Option.map_eq_none'] at h
          cases k with
          | zero => exact hf
          | succ k' => exact ih h k'

theorem rexec_isSome_of {f : List Char → Option Nat} {l : List Char} {j : Nat}
    (h0 : f [] = none) (hj : (f (l.drop j)).isSome = true) : (rexec f l).isSome = true := by
  cases hr : rexec f l with
  | some p => rfl
  | none =>
      rw [rexec_none h0 hr j] at hj
      simp at hj

@[simp] theorem mBrace_nil : mBrace [] = none := rfl

@[simp] theorem mKeyColon_nil (key : List Char) : mKeyColon key [] = none := rfl

@[simp] theorem mKeyColonBrace_nil (key : List Char) : mKeyColonBrace key [] = none := rfl

theorem mBrace_head {l : List Char} {len : Nat} (h : mBrace l = some len) :
    l.head? = some '{' := by
  cases l with
  | nil => simp [mBrace] at h
  | cons c rest =>
      rw [mBrace] at h
      by_cases hc : c = '{'
      · rw [hc]; rfl
      · rw [if_neg hc] at h; simp at h

theorem mKeyColon_slice {key l : List Char} {len : Nat} (h : mKeyColon key l = some len) :
    (l.drop 1).take key.length = key := by
  cases l with
  | nil => simp [mKeyColon] at h
  | cons q1 rest =>
      rw [mKeyColon] at h
      by_cases hc : isQuoteChar q1 = true ∧ rest.take key.length = key
      · exact hc.2
      · rw [if_neg hc] at h
        simp at h

theorem mKeyColonBrace_slice {key l : List Char} {len : Nat}
    (h : mKeyColonBrace key l = some len) : (l.drop 1).take key.length = key := by
  rw [mKeyColonBrace] at h
  cases hk : mKeyColon key l with
  | none => rw [hk] at h; simp at h
  | some len0 => exact mKeyColon_slice hk

/-- `l.get? n` is the head of `l.drop n`. -/
theorem get?_eq_head_drop (l : List Char) (n : Nat) : l.get? n = (l.drop n).head? := by
  induction l generalizing n with
  | nil => simp
  | cons c rest ih =>
      cases n with
      | zero => rfl
      | succ n' => simpa using ih n'

/-! ### The spec-side scanner

Modelled from the spec (§4.4, path navigation): scan character by character
from the array's opening bracket, with a string flag toggled on unescaped
quotes, an escape flag, a nested bracket depth, a brace depth and a count of
completed elements; a `{` at both depths zero with the count at the target
index is the start of the target element. -/

def specNthStartLoop (index : Nat) : List Char → Nat → ScanSt → Option Nat
  | [], _, _ => none
  | c :: rest, i, st =>
      if st.escapeNext then
        specNthStartLoop index rest (i + 1) { st with escapeNext := false }
      else if c = '\\' ∧ st.inString then
        specNthStartLoop index rest (i + 1) { st with escapeNext := true }
      else if c = '"' then
        specNthStartLoop index rest (i + 1) { st with inString := !st.inString }
      else if st.inString then
        specNthStartLoop index rest (i + 1) st
      else if c = '[' then
        specNthStartLoop index rest (i + 1) { st with bracketCount := st.bracketCount + 1 }
      else if c = ']' then
        if st.bracketCount > 0 then
          specNthStartLoop index rest (i + 1) { st with bracketCount := st.bracketCount - 1 }
        else none
      else if c = '{' then
        if st.braceCount = 0 ∧ st.bracketCount = 0 then
          if st.objectCount = index then some i
          else
            specNthStartLoop index rest (i + 1) { st with braceCount := st.braceCount + 1 }
        else
          specNthStartLoop index rest (i + 1) { st with braceCount := st.braceCount + 1 }
      else if c = '}' then
        if st.braceCount - 1 = 0 ∧ st.bracketCount = 0 then
          specNthStartLoop index rest (i + 1)
            { st with braceCount := st.braceCount - 1, objectCount := st.objectCount + 1 }
        else
          specNthStartLoop index rest (i + 1) { st with braceCount := st.braceCount - 1 }
      else
        specNthStartLoop index rest (i + 1) st

/-- The absolute index of the `{` starting the `index`-th top-level object
of the root array, per the spec's scanning algorithm. -/
def specNthObjectStart (text : List Char) (index : Nat) : Option Nat :=
  let ws := (text.takeWhile jsWs).length
  match text.drop ws with
  | c :: rest => if c = '[' then specNthStartLoop index rest (ws + 1) initScanSt else none
  | [] => none

theorem findNthLoop_true_eq_spec (index : Nat) (l : List Char) (i : Nat) (st : ScanSt) :
    findNthLoop index true l i st =
      (specNthStartLoop index l i st).map (fun j => (⟨j, j + 1⟩ : TextRange)) := by
  induction l generalizing i st with
  | nil => rfl
  | cons c rest ih =>
      rw [findNthLoop, specNthStartLoop]
      by_cases h1 : st.escapeNext = true
      · simp only [if_pos h1]; exact ih _ _
      · simp only [if_neg h1]
        by_cases h2 : c = '\\' ∧ st.inString = true
        · simp only [if_pos h2]; exact ih _ _
        · simp only [if_neg h2]
          by_cases h3 : c = '"'
          · simp only [if_pos h3]; exact ih _ _
          · simp only [if_neg h3]
            by_cases h4 : st.inString = true
            · simp only [if_pos h4]; exact ih _ _
            · simp only [if_neg h4]
              by_cases h5 : c = '['
              · simp only [if_pos h5]; exact ih _ _
              · simp only [if_neg h5]
                by_cases h6 : c = ']'
                · simp only [if_pos h6]
                  by_cases h6b : st.bracketCount > 0
                  · simp only [if_pos h6b]; exact ih _ _
                  · simp only [if_neg h6b]; rfl
                · simp only [if_neg h6]
                  by_cases h7 : c = '{'
                  · simp only [if_pos h7]
                    by_cases h7b : st.braceCount = 0 ∧ st.bracketCount = 0
                    · simp only [if_pos h7b]
                      by_cases h7c : st.objectCount = index
                      · simp only [if_pos h7c]
                        try rfl
                      · simp only [if_neg h7c]; exact ih _ _
                    · simp only [if_neg h7b]; exact ih _ _
                  · simp only [if_neg h7]
                    by_cases h8 : c = '}'
                    · simp only [if_pos h8]
                      by_cases h8b : st.braceCount - 1 = 0 ∧ st.bracketCount = 0
                      · simp only [if_pos h8b]; exact ih _ _
                      · simp only [if_neg h8b]; exact ih _ _
                    · simp only [if_neg h8]; exact ih _ _

theorem rexec_mIdField_brace (rest : List Char) :
    rexec mIdField (List.take 1 ('{' :: rest)) = none := rfl

theorem rexec_mTypeField_brace (rest : List Char) :
    rexec mTypeField (List.take 1 ('{' :: rest)) = none := rfl

theorem findNthLoop_false_eq_true (index : Nat) (l : List Char) (i : Nat) (st : ScanSt) :
    findNthLoop index false l i st = findNthLoop index true l i st := by
  induction l generalizing i st with
  | nil => rfl
  | cons c rest ih =>
      rw [findNthLoop, findNthLoop]
      by_cases h1 : st.escapeNext = true
      · simp only [if_pos h1]; exact ih _ _
      · simp only [if_neg h1]
        by_cases h2 : c = '\\' ∧ st.inString = true
        · simp only [if_pos h2]; exact ih _ _
        · simp only [if_neg h2]
          by_cases h3 : c = '"'
          · simp only [if_pos h3]; exact ih _ _
          · simp only [if_neg h3]
            by_cases h4 : st.inString = true
            · simp only [if_pos h4]; exact ih _ _
            · simp only [if_neg h4]
              by_cases h5 : c = '['
              · simp only [if_pos h5]; exact ih _ _
              · simp only [if_neg h5]
                by_cases h6 : c = ']'
                · simp only [if_pos h6]
                  by_cases h6b : st.bracketCount > 0
                  · simp only [if_pos h6b]; exact ih _ _
                  · simp only [if_neg h6b]; try rfl
                · simp only [if_neg h6]
                  by_cases h7 : c = '{'
                  · simp only [if_pos h7]
                    by_cases h7b : st.braceCount = 0 ∧ st.bracketCount = 0
                    · simp only [if_pos h7b]
                      by_cases h7c : st.objectCount = index
                      · simp only [if_pos h7c]
                        subst h7
                        simp [show rexec mIdField ['\x7b'] = none from rfl,
                          show rexec mTypeField ['\x7b'] = none from rfl]
                      · simp only [if_neg h7c]; exact ih _ _
                    · simp only [if_neg h7b]; exact ih _ _
                  · simp only [if_neg h7]
                    by_cases h8 : c = '}'
                    · simp only [if_pos h8]
                      by_cases h8b : st.braceCount - 1 = 0 ∧ st.bracketCount = 0
                      · simp only [if_pos h8b]; exact ih _ _
                      · simp only [if_neg h8b]; exact ih _ _
                    · simp only [if_neg h8]; exact ih _ _

theorem specNthStartLoop_brace {index : Nat} :
    ∀ {l : List Char} {i j : Nat} {st : ScanSt},
      specNthStartLoop index l i st = some j → i ≤ j ∧ l.get? (j - i) = some '{' := by
  intro l
  induction l with
  | nil => intro i j st h; simp [specNthStartLoop] at h
  | cons c rest ih =>
      intro i j st h
      have hrec : ∀ {st' : ScanSt}, specNthStartLoop index rest (i + 1) st' = some j →
          i ≤ j ∧ (c :: rest).get? (j - i) = some '{' := by
        intro st' h'
        obtain ⟨hle, hget⟩ := ih h'
        refine ⟨by omega, ?_⟩
        have heq : j - i = (j - (i + 1)) + 1 := by omega
        rw [heq]
        simpa using hget
      rw [specNthStartLoop] at h
      by_cases h1 : st.escapeNext = true
      · rw [if_pos h1] at h; exact hrec h
      · rw [if_neg h1] at h
        by_cases h2 : c = '\\' ∧ st.inString = true
        · rw [if_pos h2] at h; exact hrec h
        · rw [if_neg h2] at h
          by_cases h3 : c = '"'
          · rw [if_pos h3] at h; exact hrec h
          · rw [if_neg h3] at h
            by_cases h4 : st.inString = true
            · rw [if_pos h4] at h; exact hrec h
            · rw [if_neg h4] at h
              by_cases h5 : c = '['
              · rw [if_pos h5] at h; exact hrec h
              · rw [if_neg h5] at h
                by_cases h6 : c = ']'
                · rw [if_pos h6] at h
                  by_cases h6b : st.bracketCount > 0
                  · rw [if_pos h6b] at h; exact hrec h
                  · rw [if_neg h6b] at h; exact absurd h (by simp)
                · rw [if_neg h6] at h
                  by_cases h7 : c = '{'
                  · rw [if_pos h7] at h
                    by_cases h7b : st.braceCount = 0 ∧ st.bracketCount = 0
                    · rw [if_pos h7b] at h
                      by_cases h7c : st.objectCount = index
                      · rw [if_pos h7c] at h
                        cases h
                        refine ⟨le_refl _, ?_⟩
                        simp [h7]
                      · rw [if_neg h7c] at h; exact hrec h
                    · rw [if_neg h7b] at h; exact hrec h
                  · rw [if_neg h7] at h
                    by_cases h8 : c = '}'
                    · rw [if_pos h8] at h
                      by_cases h8b : st.braceCount - 1 = 0 ∧ st.bracketCount = 0
                      · rw [if_pos h8b] at h; exact hrec h
                      · rw [if_neg h8b] at h; exact hrec h
                    · rw [if_neg h8] at h; exact hrec h

/-- `findNthObjectInArray` returns precisely the brace range of the
spec-side start index — for both values of the `highlightBrace` flag, since
the `"id"`/`"type"` scans run on the one-character slice `{` and can never
match. -/
theorem findNthObjectInArray_eq_spec (text : List Char) (index : Nat) (hb : Bool) :
    findNthObjectInArray text index hb =
      (specNthObjectStart text index).map (fun j => (⟨j, j + 1⟩ : TextRange)) := by
  have hcore : findNthLoop index hb = findNthLoop index true := by
    cases hb
    · funext l i st
      exact findNthLoop_false_eq_true index l i st
    · rfl
  rw [findNthObjectInArray, specNthObjectStart, hcore]
  cases hdrop : text.drop (text.takeWhile jsWs).length with
  | nil => rfl
  | cons c rest =>
      dsimp only
      by_cases hbr : c = '['
      · rw [if_pos hbr, if_pos hbr]
        exact findNthLoop_true_eq_spec index rest _ initScanSt
      · rw [if_neg hbr, if_neg hbr]
        rfl

/-- The spec-side start index is an opening brace of the text. -/
theorem specNthObjectStart_brace {text : List Char} {index j : Nat}
    (h : specNthObjectStart text index = some j) : text.get? j = some '{' := by
  rw [specNthObjectStart] at h
  cases hdrop : text.drop (text.takeWhile jsWs).length with
  | nil => rw [hdrop] at h; simp at h
  | cons c rest =>
      rw [hdrop] at h
      dsimp only at h
      by_cases hbr : c = '['
      · rw [if_pos hbr] at h
        obtain ⟨hle, hget⟩ := specNthStartLoop_brace h
        have hdd : text.drop ((text.takeWhile jsWs).length + 1) = rest := by
          rw [← List.drop_drop]
          rw [hdrop]
          rfl
        have : text.get? j = (text.drop ((text.takeWhile jsWs).length + 1)).get?
            (j - ((text.takeWhile jsWs).length + 1)) := by
          rw [List.get?_drop]
          congr 1
          omega
        rw [this, hdd]
        exact hget
      · rw [if_neg hbr] at h
        simp at h

theorem headD_eq_getLastD {l : List String} (h : l.length = 1) (d : String) :
    l.headD d = l.getLastD d := by
  match l, h with
  | [x], _ => rfl

/-- In the `required` branch, `findErrorPosition` is the object lookup at
the normalized path (root brace for the empty path), with the generic
path search as fall-through. -/
theorem findErrorPosition_required (text : List Char) (err : ValidationError) (prop : String)
    (hkw : err.keyword = "required") (hprop : err.params.missingProperty = some prop) :
    findErrorPosition text err =
      ((if normalizePath err.instancePath = "" then
          match rexec mBrace text with
          | some (j, _) => some ⟨j, j + 1⟩
          | none => none
        else findErrorPosition.findObjectAtPath text (normalizePath err.instancePath) true) <|>
        (if normalizePath err.instancePath = "" then none
         else findPropertyAtPath text (normalizePath err.instancePath))) := by
  by_cases hp : normalizePath err.instancePath = "" <;>
    simp [findErrorPosition, hkw, hprop, hp]

/-! ## Claims C1, C5, C6 -/

/-- C1: on document `[{"id": "a"}]` and an error addressing top-level array
element 0, the locator returns the opening-brace range `[1,2)` even though
the element has an `"id"` field — `objectText` is
`text.substring(currentObjectStart, i + 1)` with `currentObjectStart === i`,
a one-character string, so the `"id"`/`"type"` scans can never match and the
brace fallback always wins (the claim's `"id"` key range would be `[3,5)`). -/
theorem claim_C1_nth_object_id_key :
    findErrorPosition "[\x7b\"id\": \"a\"\x7d]".toList
        { instancePath := "/0", schemaPath := "#", keyword := "x", message := "" } =
      some ⟨1, 2⟩ ∧
    (rexec mIdField ("[\x7b\"id\": \"a\"\x7d]".toList.drop 1)).isSome = true ∧
    some (⟨1, 2⟩ : TextRange) ≠ some (⟨3, 5⟩ : TextRange) := by
  refine ⟨by decide, by decide, by decide⟩

/-- C5 (counterexample): for a `required` error at `instancePath` `/ab` on
`{"ab": {"x": 1}}`, the locator returns the two-character range `[2,4)`
covering the key name `ab`, not the one-character opening-brace range of the
addressed object (the `{` at offset 7). -/
theorem claim_C5_counterexample :
    findErrorPosition "\x7b\"ab\": \x7b\"x\": 1\x7d\x7d".toList
        { instancePath := "/ab", schemaPath := "#", keyword := "required", message := ""
          params := { missingProperty := some "b" } } = some ⟨2, 4⟩ ∧
    ((⟨2, 4⟩ : TextRange).stop - (⟨2, 4⟩ : TextRange).start ≠ 1) ∧
    "\x7b\"ab\": \x7b\"x\": 1\x7d\x7d".toList.get? 2 ≠ some '{' := by
  refine ⟨by decide, by decide, by decide⟩

/-- C5 (amended): for every document text and `required` error with
`params.missingProperty` present: (A) with an empty normalized
`instancePath` the locator returns the one-character range of the first
opening brace, or `none` when there is no brace; (B) when the normalized
path's last segment is numeric and the N-th top-level object of the root
array exists (N the last segment, per the spec's scanning algorithm), the
locator returns the one-character range of that object's opening brace —
intermediate segments are ignored; (C) when the last segment is a key and
the text contains a quoted occurrence of it followed by `:` and `{`, the
locator returns the range of the first such occurrence's key characters,
not an opening brace. -/
theorem claim_C5_required_amended (text : List Char) (err : ValidationError) (prop : String)
    (hkw : err.keyword = "required")
    (hprop : err.params.missingProperty = some prop) :
    ((normalizePath err.instancePath = "" →
      (∀ j, text.get? j = some '{' → (∀ k < j, text.get? k ≠ some '{') →
        findErrorPosition text err = some ⟨j, j + 1⟩) ∧
      ((∀ k, text.get? k ≠ some '{') → findErrorPosition text err = none))) ∧
    (∀ segs seg j, normalizePath err.instancePath ≠ "" →
      jsSplitSlash (normalizePath err.instancePath) = segs →
      segs.getLastD "" = seg → isDigitSeg seg = true →
      specNthObjectStart text (parseIndex seg) = some j →
      findErrorPosition text err = some ⟨j, j + 1⟩ ∧ text.get? j = some '{') ∧
    (∀ segs seg j len, normalizePath err.instancePath ≠ "" →
      jsSplitSlash (normalizePath err.instancePath) = segs →
      segs.getLastD "" = seg → isDigitSeg seg = false →
      rexec (mKeyColonBrace seg.toList) text = some (j, len) →
      findErrorPosition text err = some ⟨j + 1, j + 1 + seg.length⟩ ∧
        (text.drop (j + 1)).take seg.length = seg.toList ∧
        (∀ k < j, mKeyColonBrace seg.toList (text.drop k) = none)) := by
  refine ⟨?_, ?_, ?_⟩
  · intro hp
    constructor
    · intro j hbr hmin
      have hdropj : mBrace (text.drop j) = some 1 := by
        rw [get?_eq_head_drop] at hbr
        cases hd : text.drop j with
        | nil => rw [hd] at hbr; simp at hbr
        | cons c t =>
            rw [hd] at hbr
            simp only [List.head?_cons, Option.some.injEq] at hbr
            rw [mBrace, if_pos hbr]
      have hsome := rexec_isSome_of (f := mBrace) rfl (l := text) (j := j) (by simp [hdropj])
      obtain ⟨⟨j0, len0⟩, hr⟩ := Option.isSome_iff_exists.mp hsome
      obtain ⟨hat, hmin0⟩ := rexec_some hr
      have hj0 : j0 = j := by
        rcases Nat.lt_trichotomy j0 j with h | h | h
        · have hb0 := mBrace_head hat
          rw [← get?_eq_head_drop] at hb0
          exact absurd hb0 (hmin j0 h)
        · exact h
        · rw [hmin0 j h] at hdropj; cases hdropj
      subst hj0
      rw [findErrorPosition_required text err prop hkw hprop, if_pos hp, if_pos hp, hr]
      rfl
    · intro hnone
      have hr : rexec mBrace text = none := by
        cases hr : rexec mBrace text with
        | none => rfl
        | some p =>
            obtain ⟨j0, len0⟩ := p
            obtain ⟨hat, -⟩ := rexec_some hr
            have hb0 := mBrace_head hat
            rw [← get?_eq_head_drop] at hb0
            exact absurd hb0 (hnone j0)
      rw [findErrorPosition_required text err prop hkw hprop, if_pos hp, if_pos hp, hr]
      rfl
  · intro segs seg j hne hsegs hlast hdig hfound
    have hget := specNthObjectStart_brace hfound
    refine ⟨?_, hget⟩
    rw [findErrorPosition_required text err prop hkw hprop, if_neg hne, if_neg hne]
    have hobj : findErrorPosition.findObjectAtPath text (normalizePath err.instancePath) true =
        some ⟨j, j + 1⟩ := by
      rw [findErrorPosition.findObjectAtPath, if_neg hne, hsegs]
      by_cases hc1 : segs.length = 1 ∧ isDigitSeg (segs.headD "") = true
      · rw [if_pos hc1]
        rw [headD_eq_getLastD hc1.1, hlast]
        rw [findNthObjectInArray_eq_spec, hfound]
        rfl
      · rw [if_neg hc1, hlast, if_pos hdig]
        rw [findNthObjectInArray_eq_spec, hfound]
        rfl
    rw [hobj]
    rfl
  · intro segs seg j len hne hsegs hlast hdig hmatch
    obtain ⟨hat, hmin⟩ := rexec_some hmatch
    have hslice : (text.drop (j + 1)).take seg.length = seg.toList := by
      have hs := mKeyColonBrace_slice hat
      rw [List.drop_drop] at hs
      simpa [Nat.add_comm] using hs
    refine ⟨?_, hslice, hmin⟩
    rw [findErrorPosition_required text err prop hkw hprop, if_neg hne, if_neg hne]
    have hc1 : ¬(segs.length = 1 ∧ isDigitSeg (segs.headD "") = true) := by
      rintro ⟨hl, hd⟩
      rw [headD_eq_getLastD hl, hlast, hdig] at hd
      cases hd
    have hobj : findErrorPosition.findObjectAtPath text (normalizePath err.instancePath) true =
        some ⟨j + 1, j + 1 + seg.length⟩ := by
      rw [findErrorPosition.findObjectAtPath, if_neg hne, hsegs, if_neg hc1, hlast,
        if_neg (by simp [hdig]), hmatch]
    rw [hobj]
    rfl

/-- C5 witness: on `{"name": "x"}` with a root-level `required` error, the
locator returns the one-character range of the first `{` (offset 0). -/
theorem claim_C5_witness :
    findErrorPosition "\x7b\"name\": \"x\"\x7d".toList
        { instancePath := "", schemaPath := "#", keyword := "required", message := ""
          params := { missingProperty := some "id" } } = some ⟨0, 1⟩ :=
  ((claim_C5_required_amended "\x7b\"name\": \"x\"\x7d".toList
      { instancePath := "", schemaPath := "#", keyword := "required", message := ""
        params := { missingProperty := some "id" } } "id" rfl rfl).1 rfl).1
    0 rfl (fun k hk => absurd hk (by omega))

/-- C6: for every document text and `additionalProperties` error carrying
`params.additionalProperty`, if the text contains a quoted occurrence of the
property name followed by a colon, the locator returns the range covering
exactly the property-name characters (quotes excluded) of the first such
occurrence. -/
theorem claim_C6_additional_property (text : List Char) (err : ValidationError) (prop : String)
    (hkw : err.keyword = "additionalProperties")
    (hprop : err.params.additionalProperty = some prop)
    (hex : ∃ k, (mKeyColon prop.toList (text.drop k)).isSome = true) :
    ∃ j, (mKeyColon prop.toList (text.drop j)).isSome = true ∧
      (∀ k < j, mKeyColon prop.toList (text.drop k) = none) ∧
      (text.drop (j + 1)).take prop.length = prop.toList ∧
      findErrorPosition text err = some ⟨j + 1, j + 1 + prop.length⟩ := by
  obtain ⟨k0, hk0⟩ := hex
  have hsome := rexec_isSome_of (f := mKeyColon prop.toList) rfl hk0
  obtain ⟨⟨j, len⟩, hr⟩ := Option.isSome_iff_exists.mp hsome
  obtain ⟨hat, hmin⟩ := rexec_some hr
  have hslice : (text.drop (j + 1)).take prop.length = prop.toList := by
    have hs := mKeyColon_slice hat
    rw [List.drop_drop] at hs
    simpa [Nat.add_comm] using hs
  refine ⟨j, Option.isSome_iff_exists.mpr ⟨len, hat⟩, hmin, hslice, ?_⟩
  have hr' : rexec (mKeyColon prop.data) text = some (j, len) := hr
  simp [findErrorPosition, hkw, hprop, hr']

/-- The spec's depth-1 scenario document `{"a": {"extra": 1}}`. -/
def textC6 : List Char := "\x7b\"a\": \x7b\"extra\": 1\x7d\x7d".toList

/-- The `additionalProperties` error for `extra`. -/
def errC6 : ValidationError :=
  { instancePath := "/a", schemaPath := "#", keyword := "additionalProperties"
    message := "must NOT have additional property 'extra'"
    params := { additionalProperty := some "extra" } }

/-- C6 witness: on the spec's scenario the located range is `[8,13)`, the
characters of `extra` (quotes and value excluded). -/
theorem claim_C6_witness :
    (∃ j, (mKeyColon "extra".toList (textC6.drop j)).isSome = true ∧
      (∀ k < j, mKeyColon "extra".toList (textC6.drop k) = none) ∧
      (textC6.drop (j + 1)).take "extra".length = "extra".toList ∧
      findErrorPosition textC6 errC6 = some ⟨j + 1, j + 1 + "extra".length⟩) ∧
    findErrorPosition textC6 errC6 = some ⟨8, 13⟩ :=
  ⟨claim_C6_additional_property textC6 errC6 "extra" rfl rfl ⟨7, by decide⟩, by decide⟩

end GtsKit
